import Mathlib

/-!
Verification of the shortest round-trip binary/decimal conversion scripts
(Drachennest, scripts/baseconv.py, scripts/dtoa/dtoa_ryu.py,
scripts/dtoa/dtoa_adams.py, scripts/ryu/compute_powers.py).

The Python code works on unbounded integers; it is embedded here with Nat
and Int, and rational values (significand times a power of two) live in ℚ.
Python floor division and arithmetic shifts become Nat division and
Int.fdiv.  The two scaling loops of BinaryFromFraction are embedded with an
explicit fuel argument (kept large enough; sufficiency is proved), and the
subnormal loop recurses on the decreasing precision.
-/

/-- Format parameters from the scripts (64-bit binary format). -/
def PRECISION : Nat := 53

def EXPONENT_BITS : Nat := 11

def HIDDEN_BIT : Nat := 2 ^ (PRECISION - 1)

def BIAS : Int := 2 ^ (EXPONENT_BITS - 1) - 1 + (PRECISION - 1)

def MIN_EXPONENT : Int := 1 - BIAS

def MAX_EXPONENT : Int := 2 ^ EXPONENT_BITS - 2 - BIAS

example : BIAS = 1075 := by decide
example : MIN_EXPONENT = -1074 := by decide
example : MAX_EXPONENT = 971 := by decide

/-!
## Integer log approximations

FloorLog2Pow5, FloorLog10Pow2, FloorLog10Pow5 are from dtoa_ryu.py,
CeilLog10Pow2 from baseconv.py.  Python's arithmetic right shift and floor
division on signed integers are Int.fdiv by the corresponding power of two.
-/

/-- From dtoa_ryu.py: (e * 38955489) >> 24, certified for -12654 <= e <= 12654. -/
def FloorLog2Pow5 (e : Int) : Int := Int.fdiv (e * 38955489) (2 ^ 24)

/-- From dtoa_ryu.py: (e * 315653) >> 20, certified for -2620 <= e <= 2620. -/
def FloorLog10Pow2 (e : Int) : Int := Int.fdiv (e * 315653) (2 ^ 20)

/-- From dtoa_ryu.py: (e * 732923) >> 20, certified for -2620 <= e <= 2620. -/
def FloorLog10Pow5 (e : Int) : Int := Int.fdiv (e * 732923) (2 ^ 20)

/-- From baseconv.py: (e * 78913 + (2^18 - 1)) // 2^18, certified for -1650 <= e <= 1650. -/
def CeilLog10Pow2 (e : Int) : Int := Int.fdiv (e * 78913 + (2 ^ 18 - 1)) (2 ^ 18)

/-!
## Comparing integer powers with signed exponents

For positive naturals b1, b2 and integers e1, e2 the inequality
b1 ^ e1 ≤ b2 ^ e2 between positive rationals is equivalent to a
cross-multiplied inequality between naturals; the Bool versions below are
what the exhaustive range checks evaluate in the kernel.
-/

/-- Bool test for b1 ^ e1 ≤ b2 ^ e2 over positive rationals, cross-multiplied into ℕ. -/
def bleZpow (b1 : Nat) (e1 : Int) (b2 : Nat) (e2 : Int) : Bool :=
  Nat.ble (b1 ^ e1.toNat * b2 ^ (-e2).toNat) (b2 ^ e2.toNat * b1 ^ (-e1).toNat)

/-- Bool test for b1 ^ e1 < b2 ^ e2 over positive rationals, cross-multiplied into ℕ. -/
def bltZpow (b1 : Nat) (e1 : Int) (b2 : Nat) (e2 : Int) : Bool :=
  Nat.blt (b1 ^ e1.toNat * b2 ^ (-e2).toNat) (b2 ^ e2.toNat * b1 ^ (-e1).toNat)

lemma qpow_split (b : Nat) (_hb : 0 < b) (e : Int) :
    (b : ℚ) ^ e = (b ^ e.toNat : ℚ) / (b ^ (-e).toNat : ℚ) := by
  rcases le_or_lt 0 e with he | he
  · have h1 : (e.toNat : Int) = e := Int.toNat_of_nonneg he
    have h2 : (-e).toNat = 0 := by omega
    rw [h2, pow_zero, div_one]
    conv_lhs => rw [← h1]
    rw [zpow_natCast]
  · have h1 : e.toNat = 0 := by omega
    have h2 : e = -((-e).toNat : Int) := by omega
    rw [h1, pow_zero]
    conv_lhs => rw [h2]
    rw [zpow_neg, zpow_natCast, one_div]

lemma bleZpow_iff (b1 b2 : Nat) (h1 : 0 < b1) (h2 : 0 < b2) (e1 e2 : Int) :
    bleZpow b1 e1 b2 e2 = true ↔ (b1 : ℚ) ^ e1 ≤ (b2 : ℚ) ^ e2 := by
  rw [bleZpow, Nat.ble_eq]
  rw [qpow_split b1 h1 e1, qpow_split b2 h2 e2]
  rw [div_le_div_iff (by positivity) (by positivity)]
  rw [← Nat.cast_pow, ← Nat.cast_pow, ← Nat.cast_pow, ← Nat.cast_pow]
  rw [← Nat.cast_mul, ← Nat.cast_mul, Nat.cast_le]

lemma bltZpow_iff (b1 b2 : Nat) (h1 : 0 < b1) (h2 : 0 < b2) (e1 e2 : Int) :
    bltZpow b1 e1 b2 e2 = true ↔ (b1 : ℚ) ^ e1 < (b2 : ℚ) ^ e2 := by
  rw [bltZpow, Nat.blt_eq]
  rw [qpow_split b1 h1 e1, qpow_split b2 h2 e2]
  rw [div_lt_div_iff (by positivity) (by positivity)]
  rw [← Nat.cast_pow, ← Nat.cast_pow, ← Nat.cast_pow, ← Nat.cast_pow]
  rw [← Nat.cast_mul, ← Nat.cast_mul, Nat.cast_lt]

/-- Extract pointwise facts from a List.range check. -/
lemma all_range_true {f : Nat → Bool} {N : Nat}
    (h : (List.range N).all f = true) : ∀ n, n < N → f n = true := by
  intro n hn
  exact List.all_eq_true.1 h n (List.mem_range.2 hn)

/-- Extract pointwise facts from a chunked (two-level) range check. -/
lemma all_range_chunk_true {f : Nat → Bool} {A B : Nat}
    (h : ((List.range A).all fun j => (List.range B).all fun i => f (B * j + i)) = true)
    (hB : 0 < B) : ∀ n, n < A * B → f n = true := by
  intro n hn
  have hj : n / B < A := by
    rcases Nat.lt_or_ge (n / B) A with h' | h'
    · exact h'
    · exact absurd hn (by
        have : A * B ≤ (n / B) * B := Nat.mul_le_mul_right B h'
        have h2 : (n / B) * B ≤ n := Nat.div_mul_le_self n B
        omega)
  have h1 := all_range_true h (n / B) hj
  have h2 := all_range_true h1 (n % B) (Nat.mod_lt n hB)
  rw [Nat.div_add_mod n B] at h2
  exact h2

/-- Extract pointwise facts from a chunked range check starting at offset O. -/
lemma all_range_chunk_off {f : Nat → Bool} {O A B : Nat}
    (h : ((List.range A).all fun j => (List.range B).all fun i => f (O + (B * j + i))) = true)
    (hB : 0 < B) : ∀ n, O ≤ n → n < O + A * B → f n = true := by
  intro n h1 h2
  have h3 := @all_range_chunk_true (fun m => f (O + m)) A B h hB (n - O) (by omega)
  have h4 : f (O + (n - O)) = true := h3
  have h5 : O + (n - O) = n := by omega
  rw [h5] at h4
  exact h4

/-!
## Exhaustive verification of the log formulas on their certified ranges
-/

/-- Pointwise check for FloorLog10Pow2 at e = n - 2620 (padded indices pass trivially). -/
def fl10p2Check (n : Nat) : Bool :=
  Nat.ble 5241 n ||
  (let e : Int := (n : Int) - 2620
   let K : Int := FloorLog10Pow2 e
   bleZpow 10 K 2 e && bltZpow 2 e 10 (K + 1))

/-- Pointwise check for FloorLog10Pow5 at e = n - 2620 (padded indices pass trivially). -/
def fl10p5Check (n : Nat) : Bool :=
  Nat.ble 5241 n ||
  (let e : Int := (n : Int) - 2620
   let K : Int := FloorLog10Pow5 e
   bleZpow 10 K 5 e && bltZpow 5 e 10 (K + 1))

/-- Pointwise check for FloorLog2Pow5 at e = n - 12654 (padded indices pass trivially). -/
def fl2p5Check (n : Nat) : Bool :=
  Nat.ble 25309 n ||
  (let e : Int := (n : Int) - 12654
   let K : Int := FloorLog2Pow5 e
   bleZpow 2 K 5 e && bltZpow 5 e 2 (K + 1))

/-- Pointwise check for CeilLog10Pow2 at e = n - 1650 (padded indices pass trivially). -/
def cl10p2Check (n : Nat) : Bool :=
  Nat.ble 3301 n ||
  (let e : Int := (n : Int) - 1650
   let K : Int := CeilLog10Pow2 e
   bltZpow 10 (K - 1) 2 e && bleZpow 2 e 10 K)

set_option maxHeartbeats 4000000 in
set_option maxRecDepth 1000000 in
set_option exponentiation.threshold 100000 in
lemma fl10p2Check_all_a :
    ((List.range 17).all fun j => (List.range 159).all fun i => fl10p2Check (0 + (159 * j + i))) = true := by
  decide

set_option maxHeartbeats 4000000 in
set_option maxRecDepth 1000000 in
set_option exponentiation.threshold 100000 in
lemma fl10p2Check_all_b :
    ((List.range 17).all fun j => (List.range 159).all fun i => fl10p2Check (2703 + (159 * j + i))) = true := by
  decide

lemma fl10p2_pointwise : ∀ n, n < 5406 → fl10p2Check n = true := by
  intro n hn
  rcases Nat.lt_or_ge n 2703 with h1 | h1
  · exact all_range_chunk_off fl10p2Check_all_a (by norm_num) n (by omega) (by omega)
  · exact all_range_chunk_off fl10p2Check_all_b (by norm_num) n (by omega) (by omega)

set_option maxHeartbeats 4000000 in
set_option maxRecDepth 1000000 in
set_option exponentiation.threshold 100000 in
lemma fl10p5Check_all_a :
    ((List.range 17).all fun j => (List.range 159).all fun i => fl10p5Check (0 + (159 * j + i))) = true := by
  decide

set_option maxHeartbeats 4000000 in
set_option maxRecDepth 1000000 in
set_option exponentiation.threshold 100000 in
lemma fl10p5Check_all_b :
    ((List.range 17).all fun j => (List.range 159).all fun i => fl10p5Check (2703 + (159 * j + i))) = true := by
  decide

lemma fl10p5_pointwise : ∀ n, n < 5406 → fl10p5Check n = true := by
  intro n hn
  rcases Nat.lt_or_ge n 2703 with h1 | h1
  · exact all_range_chunk_off fl10p5Check_all_a (by norm_num) n (by omega) (by omega)
  · exact all_range_chunk_off fl10p5Check_all_b (by norm_num) n (by omega) (by omega)

set_option maxHeartbeats 4000000 in
set_option maxRecDepth 1000000 in
set_option exponentiation.threshold 100000 in
lemma fl2p5Check_all_a :
    ((List.range 20).all fun j => (List.range 159).all fun i => fl2p5Check (0 + (159 * j + i))) = true := by
  decide

set_option maxHeartbeats 4000000 in
set_option maxRecDepth 1000000 in
set_option exponentiation.threshold 100000 in
lemma fl2p5Check_all_b :
    ((List.range 20).all fun j => (List.range 159).all fun i => fl2p5Check (3180 + (159 * j + i))) = true := by
  decide

set_option maxHeartbeats 4000000 in
set_option maxRecDepth 1000000 in
set_option exponentiation.threshold 100000 in
lemma fl2p5Check_all_c :
    ((List.range 20).all fun j => (List.range 159).all fun i => fl2p5Check (6360 + (159 * j + i))) = true := by
  decide

set_option maxHeartbeats 4000000 in
set_option maxRecDepth 1000000 in
set_option exponentiation.threshold 100000 in
lemma fl2p5Check_all_d :
    ((List.range 20).all fun j => (List.range 159).all fun i => fl2p5Check (9540 + (159 * j + i))) = true := by
  decide

set_option maxHeartbeats 4000000 in
set_option maxRecDepth 1000000 in
set_option exponentiation.threshold 100000 in
lemma fl2p5Check_all_e :
    ((List.range 20).all fun j => (List.range 159).all fun i => fl2p5Check (12720 + (159 * j + i))) = true := by
  decide

set_option maxHeartbeats 4000000 in
set_option maxRecDepth 1000000 in
set_option exponentiation.threshold 100000 in
lemma fl2p5Check_all_f :
    ((List.range 20).all fun j => (List.range 159).all fun i => fl2p5Check (15900 + (159 * j + i))) = true := by
  decide

set_option maxHeartbeats 4000000 in
set_option maxRecDepth 1000000 in
set_option exponentiation.threshold 100000 in
lemma fl2p5Check_all_g :
    ((List.range 20).all fun j => (List.range 159).all fun i => fl2p5Check (19080 + (159 * j + i))) = true := by
  decide

set_option maxHeartbeats 4000000 in
set_option maxRecDepth 1000000 in
set_option exponentiation.threshold 100000 in
lemma fl2p5Check_all_h :
    ((List.range 20).all fun j => (List.range 159).all fun i => fl2p5Check (22260 + (159 * j + i))) = true := by
  decide

lemma fl2p5_pointwise : ∀ n, n < 25440 → fl2p5Check n = true := by
  intro n hn
  rcases Nat.lt_or_ge n 3180 with h1 | h1
  · exact all_range_chunk_off fl2p5Check_all_a (by norm_num) n (by omega) (by omega)
  rcases Nat.lt_or_ge n 6360 with h2 | h2
  · exact all_range_chunk_off fl2p5Check_all_b (by norm_num) n (by omega) (by omega)
  rcases Nat.lt_or_ge n 9540 with h3 | h3
  · exact all_range_chunk_off fl2p5Check_all_c (by norm_num) n (by omega) (by omega)
  rcases Nat.lt_or_ge n 12720 with h4 | h4
  · exact all_range_chunk_off fl2p5Check_all_d (by norm_num) n (by omega) (by omega)
  rcases Nat.lt_or_ge n 15900 with h5 | h5
  · exact all_range_chunk_off fl2p5Check_all_e (by norm_num) n (by omega) (by omega)
  rcases Nat.lt_or_ge n 19080 with h6 | h6
  · exact all_range_chunk_off fl2p5Check_all_f (by norm_num) n (by omega) (by omega)
  rcases Nat.lt_or_ge n 22260 with h7 | h7
  · exact all_range_chunk_off fl2p5Check_all_g (by norm_num) n (by omega) (by omega)
  exact all_range_chunk_off fl2p5Check_all_h (by norm_num) n (by omega) (by omega)

set_option maxHeartbeats 4000000 in
set_option maxRecDepth 1000000 in
set_option exponentiation.threshold 100000 in
lemma cl10p2Check_all :
    ((List.range 21).all fun j => (List.range 159).all fun i => cl10p2Check (159 * j + i)) = true := by
  decide

lemma floorLog10Pow2_spec (e : Int) (hlo : -2620 ≤ e) (hhi : e ≤ 2620) :
    (10 : ℚ) ^ FloorLog10Pow2 e ≤ 2 ^ e ∧ (2 : ℚ) ^ e < 10 ^ (FloorLog10Pow2 e + 1) := by
  have h := fl10p2_pointwise (e + 2620).toNat (by omega)
  rw [fl10p2Check] at h
  have he : ((e + 2620).toNat : Int) - 2620 = e := by omega
  rw [he] at h
  rw [Bool.or_eq_true] at h
  rcases h with h1 | h2
  · rw [Nat.ble_eq] at h1
    omega
  · rw [Bool.and_eq_true] at h2
    exact ⟨(bleZpow_iff 10 2 (by norm_num) (by norm_num) _ _).1 h2.1,
           (bltZpow_iff 2 10 (by norm_num) (by norm_num) _ _).1 h2.2⟩

lemma floorLog10Pow5_spec (e : Int) (hlo : -2620 ≤ e) (hhi : e ≤ 2620) :
    (10 : ℚ) ^ FloorLog10Pow5 e ≤ 5 ^ e ∧ (5 : ℚ) ^ e < 10 ^ (FloorLog10Pow5 e + 1) := by
  have h := fl10p5_pointwise (e + 2620).toNat (by omega)
  rw [fl10p5Check] at h
  have he : ((e + 2620).toNat : Int) - 2620 = e := by omega
  rw [he] at h
  rw [Bool.or_eq_true] at h
  rcases h with h1 | h2
  · rw [Nat.ble_eq] at h1
    omega
  · rw [Bool.and_eq_true] at h2
    exact ⟨(bleZpow_iff 10 5 (by norm_num) (by norm_num) _ _).1 h2.1,
           (bltZpow_iff 5 10 (by norm_num) (by norm_num) _ _).1 h2.2⟩

lemma floorLog2Pow5_spec (e : Int) (hlo : -12654 ≤ e) (hhi : e ≤ 12654) :
    (2 : ℚ) ^ FloorLog2Pow5 e ≤ 5 ^ e ∧ (5 : ℚ) ^ e < 2 ^ (FloorLog2Pow5 e + 1) := by
  have h := fl2p5_pointwise (e + 12654).toNat (by omega)
  rw [fl2p5Check] at h
  have he : ((e + 12654).toNat : Int) - 12654 = e := by omega
  rw [he] at h
  rw [Bool.or_eq_true] at h
  rcases h with h1 | h2
  · rw [Nat.ble_eq] at h1
    omega
  · rw [Bool.and_eq_true] at h2
    exact ⟨(bleZpow_iff 2 5 (by norm_num) (by norm_num) _ _).1 h2.1,
           (bltZpow_iff 5 2 (by norm_num) (by norm_num) _ _).1 h2.2⟩

lemma ceilLog10Pow2_spec (e : Int) (hlo : -1650 ≤ e) (hhi : e ≤ 1650) :
    (10 : ℚ) ^ (CeilLog10Pow2 e - 1) < 2 ^ e ∧ (2 : ℚ) ^ e ≤ 10 ^ CeilLog10Pow2 e := by
  have h := all_range_chunk_true cl10p2Check_all (by norm_num) (e + 1650).toNat (by omega)
  rw [cl10p2Check] at h
  have he : ((e + 1650).toNat : Int) - 1650 = e := by omega
  rw [he] at h
  rw [Bool.or_eq_true] at h
  rcases h with h1 | h2
  · rw [Nat.ble_eq] at h1
    omega
  · rw [Bool.and_eq_true] at h2
    exact ⟨(bltZpow_iff 10 2 (by norm_num) (by norm_num) _ _).1 h2.1,
           (bleZpow_iff 2 10 (by norm_num) (by norm_num) _ _).1 h2.2⟩

/-- Claim C8: on their certified domains the integer multiply-shift formulas are
exact: FloorLog10Pow2 e = floor(log10(2^e)) and FloorLog10Pow5 e = floor(log10(5^e))
for -2620 ≤ e ≤ 2620, FloorLog2Pow5 e = floor(log2(5^e)) for -12654 ≤ e ≤ 12654, and
CeilLog10Pow2 e = ceil(log10(2^e)) for -1650 ≤ e ≤ 1650; each floor (resp. ceil) is
expressed by its characterizing power inequalities over ℚ. -/
theorem log_approximations_exact (e : Int) :
    (-2620 ≤ e → e ≤ 2620 →
      ((10 : ℚ) ^ FloorLog10Pow2 e ≤ 2 ^ e ∧ (2 : ℚ) ^ e < 10 ^ (FloorLog10Pow2 e + 1)) ∧
      ((10 : ℚ) ^ FloorLog10Pow5 e ≤ 5 ^ e ∧ (5 : ℚ) ^ e < 10 ^ (FloorLog10Pow5 e + 1))) ∧
    (-12654 ≤ e → e ≤ 12654 →
      (2 : ℚ) ^ FloorLog2Pow5 e ≤ 5 ^ e ∧ (5 : ℚ) ^ e < 2 ^ (FloorLog2Pow5 e + 1)) ∧
    (-1650 ≤ e → e ≤ 1650 →
      (10 : ℚ) ^ (CeilLog10Pow2 e - 1) < 2 ^ e ∧ (2 : ℚ) ^ e ≤ 10 ^ CeilLog10Pow2 e) :=
  ⟨fun h1 h2 => ⟨floorLog10Pow2_spec e h1 h2, floorLog10Pow5_spec e h1 h2⟩,
   fun h1 h2 => floorLog2Pow5_spec e h1 h2,
   fun h1 h2 => ceilLog10Pow2_spec e h1 h2⟩

/-- Witness for C8 at e = 100, discharging every range hypothesis. -/
theorem log_approximations_exact_witness :
    (((10 : ℚ) ^ FloorLog10Pow2 100 ≤ 2 ^ (100 : Int) ∧
      (2 : ℚ) ^ (100 : Int) < 10 ^ (FloorLog10Pow2 100 + 1)) ∧
     ((10 : ℚ) ^ FloorLog10Pow5 100 ≤ 5 ^ (100 : Int) ∧
      (5 : ℚ) ^ (100 : Int) < 10 ^ (FloorLog10Pow5 100 + 1))) ∧
    ((2 : ℚ) ^ FloorLog2Pow5 100 ≤ 5 ^ (100 : Int) ∧
     (5 : ℚ) ^ (100 : Int) < 2 ^ (FloorLog2Pow5 100 + 1)) ∧
    ((10 : ℚ) ^ (CeilLog10Pow2 100 - 1) < 2 ^ (100 : Int) ∧
     (2 : ℚ) ^ (100 : Int) ≤ 10 ^ CeilLog10Pow2 100) :=
  ⟨(log_approximations_exact 100).1 (by decide) (by decide),
   (log_approximations_exact 100).2.1 (by decide) (by decide),
   (log_approximations_exact 100).2.2 (by decide) (by decide)⟩

/-!
## Cached powers of five (dtoa_ryu.py ComputePow5, ryu/compute_powers.py ComputeRyuPower)
-/

/-- From the scripts: ceiling division, q + 1 when the remainder is nonzero. -/
def Ceil (num den : Nat) : Nat :=
  let q := num / den
  let r := num % den
  if 0 < r then q + 1 else q

/-- From dtoa_ryu.py: the 128-bit cached power significand for decimal exponent k.
For k ≥ 0 with positive shift it floors 5^k / 2^e; for k < 0 it takes the ceiling. -/
def ComputePow5 (k : Int) (bits : Nat) : Nat :=
  let e : Int := FloorLog2Pow5 k + 1 - bits
  if 0 ≤ k then
    if 0 < e then 5 ^ k.toNat / 2 ^ e.toNat
    else 5 ^ k.toNat * 2 ^ (-e).toNat
  else Ceil (2 ^ (-e).toNat) (5 ^ (-k).toNat)

/-- From ryu/compute_powers.py: the table generator; in the k ≥ 0, e > 0 branch it
computes Ceil(5^k, 2^e) (the commented-out line and the printed header say floor). -/
def ComputeRyuPower (k : Int) (bits : Nat) : Nat × Int :=
  let e : Int := FloorLog2Pow5 k + 1 - bits
  if 0 ≤ k then
    if 0 < e then (Ceil (5 ^ k.toNat) (2 ^ e.toNat), e)
    else (5 ^ k.toNat * 2 ^ (-e).toNat, e)
  else (Ceil (2 ^ (-e).toNat) (5 ^ (-k).toNat), e)

/-- Claim C7: at k = 56 (the smallest k ≥ 0 whose shift e = 3 is positive and does
not divide 5^k exactly) the generator ComputeRyuPower returns ceil(5^56 / 2^3),
which is floor(5^56 / 2^3) + 1, while the claim, the generator's own printed
documentation, and the runtime table ComputePow5 of dtoa_ryu.py all use the floor. -/
theorem computeRyuPower_rounds_up_at_56 :
    (ComputeRyuPower 56 128).1 = 5 ^ 56 / 2 ^ 3 + 1 ∧
    ComputePow5 56 128 = 5 ^ 56 / 2 ^ 3 ∧
    5 ^ 56 % 2 ^ 3 ≠ 0 ∧
    (ComputeRyuPower 56 128).1 ≠ ComputePow5 56 128 := by decide

/-- Pointwise check that the cached power at k = n - 290 is normalized from below. -/
def pow5NormCheck (n : Nat) : Bool :=
  let k : Int := (n : Int) - 290
  Nat.ble (2 ^ 127) (ComputePow5 k 128)

set_option maxHeartbeats 4000000 in
set_option maxRecDepth 1000000 in
set_option exponentiation.threshold 100000 in
lemma pow5NormCheck_all : (List.range 616).all pow5NormCheck = true := by decide

lemma computePow5_ge (k : Int) (h1 : -290 ≤ k) (h2 : k ≤ 325) :
    2 ^ 127 ≤ ComputePow5 k 128 := by
  have h := all_range_true pow5NormCheck_all (k + 290).toNat (by omega)
  rw [pow5NormCheck] at h
  have he : ((k + 290).toNat : Int) - 290 = k := by omega
  rw [he] at h
  exact Nat.ble_eq.mp h

/-!
## The Ryu output interval (dtoa_ryu.py step 2, dtoa_adams.py step 2)
-/

/-- From dtoa_ryu.py line 109 (and dtoa_adams.py line 26). -/
def lowerBoundaryIsCloser (m2 : Nat) (e2 : Int) : Bool :=
  m2 == HIDDEN_BIT && decide (MIN_EXPONENT < e2)

/-- From dtoa_ryu.py lines 109-114: the scaled interval bounds (u, v, w) at
exponent e2 - 2. -/
def RyuBounds (m2 : Nat) (e2 : Int) : Nat × Nat × Nat × Int :=
  let delta : Nat := if lowerBoundaryIsCloser m2 e2 then 1 else 0
  (4 * m2 - 2 + delta, 4 * m2, 4 * m2 + 2, e2 - 2)

/-- Value of a binary float representation, as a rational. -/
def floatVal (m : Nat) (e : Int) : ℚ := (m : ℚ) * 2 ^ e

/-- Value of the next-larger representable float (its significand is m2 + 1 at the
same exponent; at the binade top this equals the canonical next float's value). -/
def succNeighborVal (m2 : Nat) (e2 : Int) : ℚ := ((m2 : ℚ) + 1) * 2 ^ e2

/-- Value of the next-smaller representable float: half a smaller step below when
the input sits at the power-of-two boundary above the minimum exponent. -/
def predNeighborVal (m2 : Nat) (e2 : Int) : ℚ :=
  if m2 = HIDDEN_BIT ∧ MIN_EXPONENT < e2 then ((2 ^ PRECISION : ℚ) - 1) * 2 ^ (e2 - 1)
  else ((m2 : ℚ) - 1) * 2 ^ e2

lemma lowerBoundaryIsCloser_iff (m2 : Nat) (e2 : Int) :
    lowerBoundaryIsCloser m2 e2 = true ↔ (m2 = HIDDEN_BIT ∧ MIN_EXPONENT < e2) := by
  rw [lowerBoundaryIsCloser, Bool.and_eq_true, beq_iff_eq, decide_eq_true_eq]

/-- Claim C6 (counterexample): at the concrete input m2 = HIDDEN_BIT, e2 = 0 the
code computes u = 4 m2 - 2 + 1 = 4 m2 - 1, not u = 4 m2 - 2 - 1 as the claim's
formula u = 4f - 2 - delta states. -/
theorem ryu_interval_delta_sign_counterexample :
    (RyuBounds HIDDEN_BIT 0).1 = 4 * HIDDEN_BIT - 2 + 1 ∧
    (RyuBounds HIDDEN_BIT 0).1 ≠ 4 * HIDDEN_BIT - 2 - 1 := by decide

lemma two_zpow_factor (e2 : Int) (a : Int) :
    (2 : ℚ) ^ e2 = 2 ^ (e2 - a) * 2 ^ a := by
  rw [← zpow_add₀ (by norm_num : (2 : ℚ) ≠ 0)]
  ring_nf

/-- Claim C6 (amended): the code brackets the rounding interval by
u = 4 m2 - 2 + delta (plus, not minus), v = 4 m2, w = 4 m2 + 2 at exponent
e2 - 2, with delta = 1 exactly when m2 is the hidden bit and e2 is above the
format minimum; u and w are then precisely the midpoints between the input
value and its lower resp. upper representable neighbor. -/
theorem ryu_interval_bounds (m2 : Nat) (e2 : Int)
    (h1 : 2 ^ (PRECISION - 1) ≤ m2) (h2 : m2 < 2 ^ PRECISION)
    (h3 : MIN_EXPONENT ≤ e2) (h4 : e2 ≤ MAX_EXPONENT) :
    RyuBounds m2 e2 =
      ((4 * m2 - 2 + if m2 = HIDDEN_BIT ∧ MIN_EXPONENT < e2 then 1 else 0),
        4 * m2, 4 * m2 + 2, e2 - 2) ∧
    2 * (((RyuBounds m2 e2).1 : ℚ) * 2 ^ (e2 - 2)) =
      floatVal m2 e2 + predNeighborVal m2 e2 ∧
    (((RyuBounds m2 e2).2.1 : ℚ) * 2 ^ (e2 - 2)) = floatVal m2 e2 ∧
    2 * (((RyuBounds m2 e2).2.2.1 : ℚ) * 2 ^ (e2 - 2)) =
      floatVal m2 e2 + succNeighborVal m2 e2 := by
  have hm2 : 1 ≤ m2 := le_trans (by norm_num [PRECISION]) h1
  have hcond : (if lowerBoundaryIsCloser m2 e2 then (1 : Nat) else 0) =
      (if m2 = HIDDEN_BIT ∧ MIN_EXPONENT < e2 then (1 : Nat) else 0) := by
    by_cases hc : m2 = HIDDEN_BIT ∧ MIN_EXPONENT < e2
    · rw [if_pos hc, if_pos ((lowerBoundaryIsCloser_iff m2 e2).2 hc)]
    · rw [if_neg hc, if_neg]
      intro hb
      exact hc ((lowerBoundaryIsCloser_iff m2 e2).1 hb)
  have hfour : (2 : ℚ) ^ e2 = 2 ^ (e2 - 2) * 4 := by
    have := two_zpow_factor e2 2
    norm_num at this
    exact this
  have htwo : (2 : ℚ) ^ (e2 - 1) = 2 ^ (e2 - 2) * 2 := by
    have := two_zpow_factor (e2 - 1) 1
    norm_num at this
    rw [this]
    ring_nf
  constructor
  · rw [RyuBounds]
    simp only [hcond]
  refine ⟨?_, ?_, ?_⟩
  · by_cases hc : m2 = HIDDEN_BIT ∧ MIN_EXPONENT < e2
    · have hu : (RyuBounds m2 e2).1 = 4 * m2 - 1 := by
        rw [RyuBounds]
        simp only [hcond, if_pos hc]
        omega
      rw [hu, predNeighborVal, if_pos hc, floatVal]
      have hcast : ((4 * m2 - 1 : Nat) : ℚ) = 4 * (m2 : ℚ) - 1 := by
        push_cast [Nat.cast_sub (by omega : 1 ≤ 4 * m2)]
        ring
      rw [hcast, hfour, htwo, hc.1]
      norm_num [HIDDEN_BIT, PRECISION]
      ring
    · have hu : (RyuBounds m2 e2).1 = 4 * m2 - 2 := by
        rw [RyuBounds]
        simp only [hcond, if_neg hc]
        norm_num
      rw [hu, predNeighborVal, if_neg hc, floatVal]
      have hcast : ((4 * m2 - 2 : Nat) : ℚ) = 4 * (m2 : ℚ) - 2 := by
        push_cast [Nat.cast_sub (by omega : 2 ≤ 4 * m2)]
        ring
      rw [hcast, hfour]
      ring
  · have hv : (RyuBounds m2 e2).2.1 = 4 * m2 := rfl
    rw [hv, floatVal, hfour]
    push_cast
    ring
  · have hw : (RyuBounds m2 e2).2.2.1 = 4 * m2 + 2 := rfl
    rw [hw, succNeighborVal, floatVal, hfour]
    push_cast
    ring

/-- Witness for C6 at m2 = HIDDEN_BIT, e2 = 0, discharging every hypothesis. -/
theorem ryu_interval_bounds_witness :
    RyuBounds HIDDEN_BIT 0 =
      ((4 * HIDDEN_BIT - 2 + if HIDDEN_BIT = HIDDEN_BIT ∧ MIN_EXPONENT < 0 then 1 else 0),
        4 * HIDDEN_BIT, 4 * HIDDEN_BIT + 2, (0 : Int) - 2) ∧
    2 * (((RyuBounds HIDDEN_BIT 0).1 : ℚ) * 2 ^ ((0 : Int) - 2)) =
      floatVal HIDDEN_BIT 0 + predNeighborVal HIDDEN_BIT 0 ∧
    (((RyuBounds HIDDEN_BIT 0).2.1 : ℚ) * 2 ^ ((0 : Int) - 2)) = floatVal HIDDEN_BIT 0 ∧
    2 * (((RyuBounds HIDDEN_BIT 0).2.2.1 : ℚ) * 2 ^ ((0 : Int) - 2)) =
      floatVal HIDDEN_BIT 0 + succNeighborVal HIDDEN_BIT 0 :=
  ryu_interval_bounds HIDDEN_BIT 0 (le_refl _) (by norm_num [HIDDEN_BIT, PRECISION])
    (by norm_num [MIN_EXPONENT, BIAS, EXPONENT_BITS, PRECISION])
    (by norm_num [MAX_EXPONENT, BIAS, EXPONENT_BITS, PRECISION])

/-!
## Step 3 of the Ryu printer: conversion to the decimal base (dtoa_ryu.py)
-/

/-- From dtoa_ryu.py: MulShift(x, y, j) = (x * y) >> j. -/
def MulShift (x y : Nat) (j : Nat) : Nat := x * y / 2 ^ j

/-- From dtoa_ryu.py: multiply u, v, w by the cached power of five for e5 and
shift by j = e2 - k (the code asserts j ≥ 0; toNat embeds the shift). -/
def MulPow5DivPow2 (u v w : Nat) (e5 : Int) (e2 : Int) : Nat × Nat × Nat :=
  let k : Int := FloorLog2Pow5 e5 + 1 - 128
  let j : Nat := (e2 - k).toNat
  let pow5 := ComputePow5 e5 128
  (MulShift u pow5 j, MulShift v pow5 j, MulShift w pow5 j)

/-- From dtoa_ryu.py step 3: the starting decimal exponent e10 chosen from the
(already decremented) binary exponent. -/
def RyuE10 (e2 : Int) : Int :=
  if 0 ≤ e2 then max 0 (FloorLog10Pow2 e2 - 1)
  else max 0 (FloorLog10Pow5 (-e2) - 1) + e2

/-- From dtoa_ryu.py steps 2-3: the scaled decimal interval (a, b, c) and e10. -/
def DtoaRyuABC (m2 : Nat) (e2 : Int) : Nat × Nat × Nat × Int :=
  let b := RyuBounds m2 e2
  let e10 := RyuE10 (e2 - 2)
  let abc := MulPow5DivPow2 b.1 b.2.1 b.2.2.1 (-e10) (e10 - (e2 - 2))
  (abc.1, abc.2.1, abc.2.2, e10)

/-- From dtoa_adams.py steps 2-3: the exact scaled decimal interval (a, b, c) and e10. -/
def DtoaAdamsABC (m2 : Nat) (e2 : Int) : Nat × Nat × Nat × Int :=
  let u := 4 * m2 - 2 + (if lowerBoundaryIsCloser m2 e2 then 1 else 0)
  let v := 4 * m2
  let w := 4 * m2 + 2
  let e2' := e2 - 2
  if 0 ≤ e2' then (u * 2 ^ e2'.toNat, v * 2 ^ e2'.toNat, w * 2 ^ e2'.toNat, 0)
  else (u * 5 ^ (-e2').toNat, v * 5 ^ (-e2').toNat, w * 5 ^ (-e2').toNat, e2')

/-- Pointwise check, for e2 = n - 1076: the decimal exponent chosen by RyuE10 keeps
the table index in [-290, 325] and the shift j in [0, 127]. -/
def ryuShiftCheck (n : Nat) : Bool :=
  let e2 : Int := (n : Int) - 1076
  let e10 : Int := RyuE10 e2
  let k : Int := FloorLog2Pow5 (-e10) + 1 - 128
  let j : Int := (e10 - e2) - k
  decide (-290 ≤ -e10) && decide (-e10 ≤ 325) && decide (0 ≤ j) && decide (j ≤ 127)

set_option maxHeartbeats 4000000 in
set_option maxRecDepth 1000000 in
set_option exponentiation.threshold 100000 in
lemma ryuShiftCheck_all : (List.range 2046).all ryuShiftCheck = true := by decide

lemma ryuShift_spec (e2 : Int) (h1 : -1076 ≤ e2) (h2 : e2 ≤ 969) :
    -290 ≤ -RyuE10 e2 ∧ -RyuE10 e2 ≤ 325 ∧
    0 ≤ (RyuE10 e2 - e2) - (FloorLog2Pow5 (-RyuE10 e2) + 1 - 128) ∧
    (RyuE10 e2 - e2) - (FloorLog2Pow5 (-RyuE10 e2) + 1 - 128) ≤ 127 := by
  have h := all_range_true ryuShiftCheck_all (e2 + 1076).toNat (by omega)
  rw [ryuShiftCheck] at h
  have he : ((e2 + 1076).toNat : Int) - 1076 = e2 := by omega
  rw [he] at h
  simp only [Bool.and_eq_true, decide_eq_true_eq] at h
  exact ⟨h.1.1.1, h.1.1.2, h.1.2, h.2⟩

lemma mulShift_gap (u w P J : Nat) (hu3w : u + 3 ≤ w) (hP : 2 ^ 127 ≤ P) (hJ : J ≤ 127) :
    u * P / 2 ^ J + 1 < w * P / 2 ^ J := by
  have h1 : u * P + 3 * 2 ^ (127 - J) * 2 ^ J ≤ w * P := by
    have ha : 3 * 2 ^ (127 - J) * 2 ^ J = 3 * 2 ^ 127 := by
      rw [mul_assoc, ← pow_add]
      congr 2
      omega
    have hb : 3 * 2 ^ 127 ≤ 3 * P := Nat.mul_le_mul_left 3 hP
    have hc : (u + 3) * P ≤ w * P := Nat.mul_le_mul_right P hu3w
    rw [ha]
    calc u * P + 3 * 2 ^ 127 ≤ u * P + 3 * P := by omega
      _ = (u + 3) * P := by ring
      _ ≤ w * P := hc
  have h2 : u * P / 2 ^ J + 3 * 2 ^ (127 - J) ≤ w * P / 2 ^ J := by
    have := Nat.div_le_div_right (c := 2 ^ J) h1
    rwa [Nat.add_mul_div_right _ _ (Nat.pos_pow_of_pos J (by norm_num))] at this
  have h3 : 1 ≤ 2 ^ (127 - J) := Nat.one_le_two_pow
  omega

lemma mul_base_gap (u w B : Nat) (h : u + 3 ≤ w) (hB : 1 ≤ B) : u * B + 1 < w * B := by
  have h1 : (u + 3) * B ≤ w * B := Nat.mul_le_mul_right B h
  have h2 : 3 * 1 ≤ 3 * B := Nat.mul_le_mul_left 3 hB
  have h3 : (u + 3) * B = u * B + 3 * B := by ring
  omega

lemma ryu_uw_gap (m2 : Nat) (e2 : Int) (h1 : 0 < m2) :
    (RyuBounds m2 e2).1 + 3 ≤ (RyuBounds m2 e2).2.2.1 := by
  have hu : (RyuBounds m2 e2).1 =
      4 * m2 - 2 + (if lowerBoundaryIsCloser m2 e2 then 1 else 0) := rfl
  have hw : (RyuBounds m2 e2).2.2.1 = 4 * m2 + 2 := rfl
  rw [hu, hw]
  by_cases hb : lowerBoundaryIsCloser m2 e2
  · rw [if_pos hb]
    omega
  · rw [if_neg hb]
    omega

/-- Claim C9: for every valid input of the 64-bit format the scaled decimal
interval computed by the printer satisfies a < c - 1 (stated as a + 1 < c over ℕ),
both for the 128-bit cached-power version (dtoa_ryu.py, assertion at line 196) and
for the exact arbitrary-precision version (dtoa_adams.py, assertion at line 53). -/
theorem ryu_interval_never_collapses (m2 : Nat) (e2 : Int)
    (h1 : 0 < m2) (h2 : m2 < 2 ^ PRECISION)
    (h3 : MIN_EXPONENT ≤ e2) (h4 : e2 ≤ MAX_EXPONENT) :
    (DtoaRyuABC m2 e2).1 + 1 < (DtoaRyuABC m2 e2).2.2.1 ∧
    (DtoaAdamsABC m2 e2).1 + 1 < (DtoaAdamsABC m2 e2).2.2.1 := by
  have hmin : MIN_EXPONENT = -1074 := by decide
  have hmax : MAX_EXPONENT = 971 := by decide
  obtain ⟨hA, hB, hjlo, hjhi⟩ := ryuShift_spec (e2 - 2) (by omega) (by omega)
  constructor
  · have hgap := ryu_uw_gap m2 e2 h1
    have hPge : 2 ^ 127 ≤ ComputePow5 (-(RyuE10 (e2 - 2))) 128 := computePow5_ge _ hA hB
    have hJ : ((RyuE10 (e2 - 2) - (e2 - 2)) -
        (FloorLog2Pow5 (-(RyuE10 (e2 - 2))) + 1 - 128)).toNat ≤ 127 := by omega
    exact mulShift_gap _ _ _ _ hgap hPge hJ
  · have hgap : (4 * m2 - 2 + (if lowerBoundaryIsCloser m2 e2 then 1 else 0)) + 3 ≤
        4 * m2 + 2 := ryu_uw_gap m2 e2 h1
    rw [DtoaAdamsABC]
    by_cases hcase : 0 ≤ e2 - 2
    · rw [if_pos hcase]
      exact mul_base_gap _ _ _ hgap (Nat.one_le_two_pow)
    · rw [if_neg hcase]
      exact mul_base_gap _ _ _ hgap (Nat.one_le_pow _ _ (by norm_num))

/-- Witness for C9 at m2 = 2^52, e2 = 0, discharging every hypothesis. -/
theorem ryu_interval_never_collapses_witness :
    (DtoaRyuABC (2 ^ 52) 0).1 + 1 < (DtoaRyuABC (2 ^ 52) 0).2.2.1 ∧
    (DtoaAdamsABC (2 ^ 52) 0).1 + 1 < (DtoaAdamsABC (2 ^ 52) 0).2.2.1 :=
  ryu_interval_never_collapses (2 ^ 52) 0 (by norm_num)
    (by norm_num [PRECISION]) (by decide) (by decide)

/-!
## The decimal-to-binary parser (baseconv.py BinaryFromFraction)

The three while loops are embedded as recursive functions: the two scaling
loops take an explicit fuel argument (the top-level function passes fuel
that is proved sufficient below), the subnormal loop recurses on the
decreasing precision p.
-/

/-- Loop 1 of BinaryFromFraction: while num >= 2^p * den, double den and
increment e. -/
def scaleDown : Nat → Nat → Nat → Int → Nat → Nat × Int
  | 0, _, den, e, _ => (den, e)
  | fuel + 1, num, den, e, p =>
    if 2 ^ p * den ≤ num then scaleDown fuel num (2 * den) (e + 1) p else (den, e)

/-- Loop 2 of BinaryFromFraction: while num < 2^(p-1) * den, double num and
decrement e. -/
def scaleUp : Nat → Nat → Nat → Int → Nat → Nat × Int
  | 0, num, _, e, _ => (num, e)
  | fuel + 1, num, den, e, p =>
    if num < 2 ^ (p - 1) * den then scaleUp fuel (2 * num) den (e - 1) p else (num, e)

/-- Loop 3 of BinaryFromFraction: while e < MIN_EXPONENT and p > 1, double den,
increment e and reduce the precision; recursion on p. -/
def subnormalize : Nat → Nat → Int → Nat × Int × Nat
  | 0, den, e => (den, e, 0)
  | 1, den, e => (den, e, 1)
  | p + 2, den, e =>
    if e < MIN_EXPONENT then subnormalize (p + 1) (2 * den) (e + 1) else (den, e, p + 2)

/-- The three scaling stages of BinaryFromFraction: returns (num', den', e, p). -/
def BFFscaled (num den : Nat) : Nat × Nat × Int × Nat :=
  let sd := scaleDown num num den 0 PRECISION
  let su := scaleUp (2 ^ (PRECISION - 1) * sd.1) num sd.1 sd.2 PRECISION
  let sn := subnormalize PRECISION sd.1 su.2
  (su.1, sn.1, sn.2.1, sn.2.2)

/-- The rounding applied by BinaryFromFraction: floor of num/den, then round the
remainder to nearest with ties to the even quotient. -/
def roundNearestEven (num den : Nat) : Nat :=
  let f := num / den
  let r := num % den
  if r = 0 then f
  else if den < 2 * r ∨ (2 * r = den ∧ f % 2 ≠ 0) then f + 1 else f

/-- Divide-and-round step of BinaryFromFraction, with the significand-overflow
carry (f = 2^PRECISION becomes 2^(PRECISION-1) with e + 1). -/
def BFFround (num den : Nat) (e : Int) (p : Nat) : Nat × Int × Nat × Bool :=
  let f := num / den
  let r := num % den
  if r = 0 then (f, e, p, true)
  else if den < 2 * r ∨ (2 * r = den ∧ f % 2 ≠ 0) then
    (if f + 1 = 2 ^ PRECISION then (2 ^ (PRECISION - 1), e + 1, p, false)
     else (f + 1, e, p, false))
  else (f, e, p, false)

/-- baseconv.py BinaryFromFraction, as the composition of its stages. -/
def BinaryFromFraction (num den : Nat) : Nat × Int × Nat × Bool :=
  let s := BFFscaled num den
  BFFround s.1 s.2.1 s.2.2.1 s.2.2.2

/-- The assertions at the top of BinaryFromFraction. -/
def BinaryFromFractionPre (num den : Nat) : Prop := num ≠ 0 ∧ den ≠ 0

/-- Numerator passed by baseconv.py BinaryFromDecimal to BinaryFromFraction. -/
def decimalNum (d : Nat) (k : Int) : Nat := if 0 ≤ k then d * 10 ^ k.toNat else d

/-- Denominator passed by baseconv.py BinaryFromDecimal to BinaryFromFraction. -/
def decimalDen (k : Int) : Nat := if 0 ≤ k then 1 else 10 ^ (-k).toNat

/-- baseconv.py BinaryFromDecimal. -/
def BinaryFromDecimal (d : Nat) (k : Int) : Nat × Int × Nat × Bool :=
  BinaryFromFraction (decimalNum d k) (decimalDen k)

/-!
### Shape and exit lemmas for the scaling loops
-/

lemma scaleDown_shape (fuel : Nat) : ∀ num den e p, ∃ t : Nat,
    scaleDown fuel num den e p = (den * 2 ^ t, e + t) := by
  induction fuel with
  | zero =>
    intro num den e p
    exact ⟨0, by simp [scaleDown]⟩
  | succ fuel ih =>
    intro num den e p
    rw [scaleDown]
    by_cases h : 2 ^ p * den ≤ num
    · rw [if_pos h]
      obtain ⟨t, ht⟩ := ih num (2 * den) (e + 1) p
      refine ⟨t + 1, ?_⟩
      rw [ht]
      simp only [Prod.mk.injEq]
      refine ⟨by ring, by push_cast; ring⟩
    · rw [if_neg h]
      exact ⟨0, by simp⟩

lemma scaleDown_exit (fuel : Nat) : ∀ num den e p,
    num < 2 ^ p * den * 2 ^ fuel →
    num < 2 ^ p * (scaleDown fuel num den e p).1 := by
  induction fuel with
  | zero =>
    intro num den e p h
    simpa [scaleDown] using h
  | succ fuel ih =>
    intro num den e p h
    rw [scaleDown]
    by_cases hg : 2 ^ p * den ≤ num
    · rw [if_pos hg]
      apply ih
      calc num < 2 ^ p * den * 2 ^ (fuel + 1) := h
        _ = 2 ^ p * (2 * den) * 2 ^ fuel := by ring
    · rw [if_neg hg]
      show num < 2 ^ p * den
      exact lt_of_not_le hg

lemma scaleUp_shape (fuel : Nat) : ∀ num den e p, ∃ t : Nat,
    scaleUp fuel num den e p = (num * 2 ^ t, e - t) := by
  induction fuel with
  | zero =>
    intro num den e p
    exact ⟨0, by simp [scaleUp]⟩
  | succ fuel ih =>
    intro num den e p
    rw [scaleUp]
    by_cases h : num < 2 ^ (p - 1) * den
    · rw [if_pos h]
      obtain ⟨t, ht⟩ := ih (2 * num) den (e - 1) p
      refine ⟨t + 1, ?_⟩
      rw [ht]
      simp only [Prod.mk.injEq]
      refine ⟨by ring, by push_cast; ring⟩
    · rw [if_neg h]
      exact ⟨0, by simp⟩

lemma scaleUp_exit (fuel : Nat) : ∀ num den e p,
    2 ^ (p - 1) * den ≤ num * 2 ^ fuel →
    2 ^ (p - 1) * den ≤ (scaleUp fuel num den e p).1 := by
  induction fuel with
  | zero =>
    intro num den e p h
    simpa [scaleUp] using h
  | succ fuel ih =>
    intro num den e p h
    rw [scaleUp]
    by_cases hg : num < 2 ^ (p - 1) * den
    · rw [if_pos hg]
      apply ih
      calc 2 ^ (p - 1) * den ≤ num * 2 ^ (fuel + 1) := h
        _ = 2 * num * 2 ^ fuel := by ring
    · rw [if_neg hg]
      show 2 ^ (p - 1) * den ≤ num
      exact le_of_not_lt hg

lemma scaleUp_upper (fuel : Nat) : ∀ num den e p, 1 ≤ p →
    num < 2 ^ p * den →
    (scaleUp fuel num den e p).1 < 2 ^ p * den := by
  induction fuel with
  | zero =>
    intro num den e p _ h
    simpa [scaleUp] using h
  | succ fuel ih =>
    intro num den e p hp h
    rw [scaleUp]
    by_cases hg : num < 2 ^ (p - 1) * den
    · rw [if_pos hg]
      apply ih _ _ _ _ hp
      have hpow : 2 * 2 ^ (p - 1) = 2 ^ p := by
        rw [← pow_succ']
        congr 1
        omega
      calc 2 * num < 2 * (2 ^ (p - 1) * den) := by omega
        _ = 2 ^ p * den := by rw [← mul_assoc, hpow]
    · rw [if_neg hg]
      exact h

lemma subnormalize_spec : ∀ p den e, 1 ≤ p →
    ∃ t : Nat, t ≤ p - 1 ∧
      subnormalize p den e = (den * 2 ^ t, e + t, p - t) ∧
      (MIN_EXPONENT ≤ e + t ∨ p - t = 1) ∧
      (1 ≤ t → e + t ≤ MIN_EXPONENT) ∧
      (MIN_EXPONENT ≤ e → t = 0) := by
  intro p
  induction p using Nat.strong_induction_on with
  | _ p ih =>
    match p with
    | 0 =>
      intro den e h0
      exact absurd h0 (by omega)
    | 1 =>
      intro den e _
      exact ⟨0, by simp [subnormalize], by simp [subnormalize], by simp, by omega, fun _ => rfl⟩
    | (q + 2) =>
      intro den e _
      rw [subnormalize]
      by_cases hg : e < MIN_EXPONENT
      · rw [if_pos hg]
        obtain ⟨t, ht1, ht2, ht3, ht4, ht5⟩ := ih (q + 1) (by omega) (2 * den) (e + 1) (by omega)
        refine ⟨t + 1, by omega, ?_, ?_, ?_, ?_⟩
        · rw [ht2]
          refine congrArg₂ _ (by ring) (congrArg₂ _ (by omega) (by omega))
        · rcases ht3 with h | h
          · left
            omega
          · right
            omega
        · intro _
          rcases Nat.eq_zero_or_pos t with h0 | h0
          · subst h0
            simp only [Nat.cast_zero, add_zero] at ht3 ht5 ⊢
            push_cast
            omega
          · have := ht4 h0
            push_cast at this ⊢
            omega
        · intro hmin
          omega
      · rw [if_neg hg]
        refine ⟨0, by omega, by simp, ?_, by omega, fun _ => rfl⟩
        left
        push_cast
        omega

/-!
### The state after all three scaling stages
-/

lemma BFFscaled_spec (num den : Nat) (hnum : 0 < num) (hden : 0 < den) :
    0 < (BFFscaled num den).2.1 ∧
    1 ≤ (BFFscaled num den).2.2.2 ∧ (BFFscaled num den).2.2.2 ≤ PRECISION ∧
    2 ^ ((BFFscaled num den).2.2.2 - 1) * (BFFscaled num den).2.1 ≤ (BFFscaled num den).1 ∧
    (BFFscaled num den).1 < 2 ^ (BFFscaled num den).2.2.2 * (BFFscaled num den).2.1 ∧
    (MIN_EXPONENT ≤ (BFFscaled num den).2.2.1 ∨ (BFFscaled num den).2.2.2 = 1) ∧
    ((BFFscaled num den).2.2.2 < PRECISION → (BFFscaled num den).2.2.1 ≤ MIN_EXPONENT) ∧
    ((BFFscaled num den).1 : ℚ) / ((BFFscaled num den).2.1 : ℚ) * 2 ^ (BFFscaled num den).2.2.1
      = (num : ℚ) / (den : ℚ) := by
  obtain ⟨t1, h1⟩ := scaleDown_shape num num den 0 PRECISION
  obtain ⟨t2, h2⟩ :=
    scaleUp_shape (2 ^ (PRECISION - 1) * (den * 2 ^ t1)) num (den * 2 ^ t1) (0 + t1) PRECISION
  obtain ⟨t3, ht3le, h3, hexit, hred, hstay⟩ :=
    subnormalize_spec PRECISION (den * 2 ^ t1) ((0 + (t1 : Int)) - t2) (by norm_num [PRECISION])
  have hB : BFFscaled num den =
      (num * 2 ^ t2, den * 2 ^ t1 * 2 ^ t3, 0 + (t1 : Int) - t2 + t3, PRECISION - t3) := by
    simp only [BFFscaled, h1, h2, h3]
  -- exit of loop 1 at fuel = num
  have hsd_exit : num < 2 ^ PRECISION * (den * 2 ^ t1) := by
    have := scaleDown_exit num num den 0 PRECISION (by
      have hlt : num < 2 ^ num := Nat.lt_two_pow num
      have hge : 1 ≤ 2 ^ PRECISION * den := Nat.one_le_iff_ne_zero.2 (by positivity)
      calc num < 2 ^ num := hlt
        _ ≤ 2 ^ PRECISION * den * 2 ^ num := Nat.le_mul_of_pos_left _ (by positivity)
      )
    rwa [h1] at this
  -- lower bound of loop 2 at fuel = 2^(PRECISION-1) * den1
  have hsu_low : 2 ^ (PRECISION - 1) * (den * 2 ^ t1) ≤ num * 2 ^ t2 := by
    have := scaleUp_exit (2 ^ (PRECISION - 1) * (den * 2 ^ t1)) num (den * 2 ^ t1)
      (0 + t1) PRECISION (by
        have hlt : 2 ^ (PRECISION - 1) * (den * 2 ^ t1) <
            2 ^ (2 ^ (PRECISION - 1) * (den * 2 ^ t1)) :=
          Nat.lt_two_pow _
        calc 2 ^ (PRECISION - 1) * (den * 2 ^ t1)
            ≤ 2 ^ (2 ^ (PRECISION - 1) * (den * 2 ^ t1)) := le_of_lt hlt
          _ ≤ num * 2 ^ (2 ^ (PRECISION - 1) * (den * 2 ^ t1)) :=
              Nat.le_mul_of_pos_left _ hnum)
    rwa [h2] at this
  have hsu_up : num * 2 ^ t2 < 2 ^ PRECISION * (den * 2 ^ t1) := by
    have := scaleUp_upper (2 ^ (PRECISION - 1) * (den * 2 ^ t1)) num (den * 2 ^ t1)
      (0 + t1) PRECISION (by norm_num [PRECISION]) hsd_exit
    rwa [h2] at this
  rw [hB]
  have hP : PRECISION = 53 := rfl
  refine ⟨by positivity, ?_, ?_, ?_, ?_, ?_, ?_, ?_⟩
  · show 1 ≤ PRECISION - t3
    omega
  · show PRECISION - t3 ≤ PRECISION
    omega
  · -- lower range bound transfers through subnormalize
    have hpow : 2 ^ (PRECISION - t3 - 1) * (den * 2 ^ t1 * 2 ^ t3) =
        2 ^ (PRECISION - 1) * (den * 2 ^ t1) := by
      rw [show 2 ^ (PRECISION - t3 - 1) * (den * 2 ^ t1 * 2 ^ t3) =
          2 ^ (PRECISION - t3 - 1) * 2 ^ t3 * (den * 2 ^ t1) by ring, ← pow_add]
      congr 2
      omega
    simpa [hpow] using hsu_low
  · have hpow : 2 ^ (PRECISION - t3) * (den * 2 ^ t1 * 2 ^ t3) =
        2 ^ PRECISION * (den * 2 ^ t1) * 2 ^ t3 * 2 ^ t3 / 2 ^ t3 / 2 ^ t3 := by
      rw [Nat.mul_div_cancel _ (by positivity), Nat.mul_div_cancel _ (by positivity)]
      rw [show 2 ^ (PRECISION - t3) * (den * 2 ^ t1 * 2 ^ t3) =
          2 ^ (PRECISION - t3) * 2 ^ t3 * (den * 2 ^ t1) by ring, ← pow_add]
      congr 2
      omega
    rw [hpow, Nat.mul_div_cancel _ (by positivity), Nat.mul_div_cancel _ (by positivity)]
    exact hsu_up
  · exact hexit
  · intro hlt
    have hlt2 : PRECISION - t3 < PRECISION := hlt
    exact hred (by omega)
  · -- value preservation
    have hE : 0 + (t1 : Int) - t2 + t3 = ((t1 + t3 : Nat) : Int) - (t2 : Nat) := by
      push_cast
      ring
    rw [hE, zpow_sub₀ (by norm_num : (2 : ℚ) ≠ 0), zpow_natCast, zpow_natCast]
    have hd0 : (den : ℚ) ≠ 0 := by positivity
    have h2t : ((2 : ℚ) ^ t2) ≠ 0 := by positivity
    push_cast
    field_simp
    ring

/-!
### Properties of the divide-and-round step
-/

lemma BFFround_p (num den : Nat) (e : Int) (p : Nat) : (BFFround num den e p).2.2.1 = p := by
  simp only [BFFround]
  split_ifs <;> rfl

lemma BFFround_exact (num den : Nat) (e : Int) (p : Nat) :
    ((BFFround num den e p).2.2.2 = true) ↔ num % den = 0 := by
  simp only [BFFround]
  split_ifs with h1 h2 h3 <;> simp [h1]

lemma BFFround_val (num den : Nat) (e : Int) (p : Nat) :
    ((BFFround num den e p).1 : ℚ) * 2 ^ (BFFround num den e p).2.1
      = (roundNearestEven num den : ℚ) * 2 ^ e := by
  simp only [BFFround, roundNearestEven]
  split_ifs with h1 h2 h3
  · rfl
  · rw [h3]
    push_cast
    rw [zpow_add₀ (by norm_num : (2 : ℚ) ≠ 0) e 1]
    rw [show ((2 : ℚ) ^ PRECISION) = 2 ^ (PRECISION - 1) * 2 by
      rw [← pow_succ]
      congr 1]
    ring
  · rfl
  · rfl

lemma BFFround_e (num den : Nat) (e : Int) (p : Nat) (hupper : num < 2 ^ PRECISION * den) :
    (BFFround num den e p).2.1 =
      (if roundNearestEven num den = 2 ^ PRECISION then e + 1 else e) := by
  have hden : 0 < den := by
    rcases Nat.eq_zero_or_pos den with h | h
    · subst h
      simp at hupper
    · exact h
  have hf : num / den < 2 ^ PRECISION := Nat.div_lt_of_lt_mul (by
    calc num < 2 ^ PRECISION * den := hupper
      _ = den * 2 ^ PRECISION := Nat.mul_comm _ _)
  simp only [BFFround, roundNearestEven]
  split_ifs with h1 h2 h3 <;> first | rfl | omega

lemma BFFround_f (num den : Nat) (e : Int) (p : Nat) (hden : 0 < den) (hp1 : 1 ≤ p)
    (hp : p ≤ PRECISION) (hlower : 2 ^ (p - 1) * den ≤ num) (hupper : num < 2 ^ p * den) :
    0 < (BFFround num den e p).1 ∧ (BFFround num den e p).1 < 2 ^ PRECISION := by
  have hf0hi : num / den < 2 ^ p := Nat.div_lt_of_lt_mul (by
    calc num < 2 ^ p * den := hupper
      _ = den * 2 ^ p := Nat.mul_comm _ _)
  have hf0lo : 2 ^ (p - 1) ≤ num / den := (Nat.le_div_iff_mul_le hden).2 (by omega)
  have hppow : 2 ^ p ≤ 2 ^ PRECISION := Nat.pow_le_pow_right (by norm_num) hp
  have hppos : 0 < 2 ^ (p - 1) := by positivity
  simp only [BFFround]
  split_ifs with h1 h2 h3
  · constructor <;> omega
  · constructor
    · positivity
    · have : (1 : Nat) ≤ PRECISION := by norm_num [PRECISION]
      exact Nat.pow_lt_pow_right (by norm_num) (by omega)
  · constructor <;> omega
  · constructor <;> omega

lemma roundNearestEven_mem (n d : Nat) :
    roundNearestEven n d = n / d ∨ roundNearestEven n d = n / d + 1 := by
  simp only [roundNearestEven]
  split_ifs <;> simp

lemma roundNearestEven_eq_top (n d : Nat)
    (h : roundNearestEven n d = 2 ^ PRECISION) (hf : n / d < 2 ^ PRECISION) :
    n % d ≠ 0 ∧ (d < 2 * (n % d) ∨ (2 * (n % d) = d ∧ (n / d) % 2 ≠ 0)) ∧
      n / d + 1 = 2 ^ PRECISION := by
  simp only [roundNearestEven] at h
  split_ifs at h with h1 h2
  · omega
  · exact ⟨h1, h2, by omega⟩
  · omega

lemma BinaryFromFraction_def (num den : Nat) :
    BinaryFromFraction num den =
      BFFround (BFFscaled num den).1 (BFFscaled num den).2.1
        (BFFscaled num den).2.2.1 (BFFscaled num den).2.2.2 := rfl

lemma BinaryFromFraction_bounds (num den : Nat) (hnum : 0 < num) (hden : 0 < den) :
    0 < (BinaryFromFraction num den).1 ∧ (BinaryFromFraction num den).1 < 2 ^ PRECISION ∧
    1 ≤ (BinaryFromFraction num den).2.2.1 ∧ (BinaryFromFraction num den).2.2.1 ≤ PRECISION := by
  obtain ⟨hD, hP1, hP2, hlow, hup, hexit, hred, hval⟩ := BFFscaled_spec num den hnum hden
  have h1 := BFFround_f (BFFscaled num den).1 (BFFscaled num den).2.1
    (BFFscaled num den).2.2.1 (BFFscaled num den).2.2.2 hD hP1 hP2 hlow hup
  have h2 := BFFround_p (BFFscaled num den).1 (BFFscaled num den).2.1
    (BFFscaled num den).2.2.1 (BFFscaled num den).2.2.2
  rw [BinaryFromFraction_def]
  rw [h2] at *
  exact ⟨h1.1, h1.2, hP1, hP2⟩

/-- Claim C10: for every d ≥ 1 and every k, BinaryFromDecimal returns a
significand f with 0 < f < 2^PRECISION and a precision p with 1 ≤ p ≤ PRECISION
(the assertions on f never fire), while d = 0 violates the num != 0 assertion
of BinaryFromFraction. -/
theorem binaryFromDecimal_in_bounds :
    (∀ (d : Nat) (k : Int), 0 < d →
      0 < (BinaryFromDecimal d k).1 ∧ (BinaryFromDecimal d k).1 < 2 ^ PRECISION ∧
      1 ≤ (BinaryFromDecimal d k).2.2.1 ∧ (BinaryFromDecimal d k).2.2.1 ≤ PRECISION) ∧
    (∀ k : Int, ¬ BinaryFromFractionPre (decimalNum 0 k) (decimalDen k)) := by
  constructor
  · intro d k hd
    have hnum : 0 < decimalNum d k := by
      rw [decimalNum]
      split_ifs
      · positivity
      · exact hd
    have hden : 0 < decimalDen k := by
      rw [decimalDen]
      split_ifs
      · norm_num
      · positivity
    exact BinaryFromFraction_bounds _ _ hnum hden
  · intro k
    rw [BinaryFromFractionPre, decimalNum]
    split_ifs <;> simp

/-- Witness for C10 at d = 7, k = -2. -/
theorem binaryFromDecimal_in_bounds_witness :
    0 < (BinaryFromDecimal 7 (-2)).1 ∧ (BinaryFromDecimal 7 (-2)).1 < 2 ^ PRECISION ∧
    1 ≤ (BinaryFromDecimal 7 (-2)).2.2.1 ∧ (BinaryFromDecimal 7 (-2)).2.2.1 ≤ PRECISION :=
  binaryFromDecimal_in_bounds.1 7 (-2) (by norm_num)

/-- The exact rational value d * 10^k handed to BinaryFromFraction. -/
lemma decimal_val (d : Nat) (k : Int) :
    ((decimalNum d k : Nat) : ℚ) / ((decimalDen k : Nat) : ℚ) = (d : ℚ) * 10 ^ k := by
  rw [decimalNum, decimalDen]
  split_ifs with h
  · have hk : (k.toNat : Int) = k := Int.toNat_of_nonneg h
    push_cast
    rw [div_one]
    congr 1
    conv_rhs => rw [← hk]
    rw [zpow_natCast]
  · have h1 := qpow_split 10 (by norm_num) k
    have h10 : ((10 : Nat) : ℚ) = (10 : ℚ) := by norm_num
    rw [h10] at h1
    rw [h1]
    have hk0 : k.toNat = 0 := by omega
    rw [hk0, pow_zero]
    push_cast
    ring

lemma cast_div_add_mod (N D : Nat) (hD : 0 < D) :
    (N : ℚ) / D = ((N / D : Nat) : ℚ) + ((N % D : Nat) : ℚ) / D := by
  have h := Nat.div_add_mod N D
  have hq : ((D * (N / D) + N % D : Nat) : ℚ) = N := by exact_mod_cast congrArg Nat.cast h
  push_cast at hq
  have hD0 : (D : ℚ) ≠ 0 := by positivity
  field_simp
  linarith [hq]

lemma q_between (N D : Nat) (hD : 0 < D) (hr : N % D ≠ 0) :
    ((N / D : Nat) : ℚ) < (N : ℚ) / D ∧ (N : ℚ) / D < ((N / D : Nat) : ℚ) + 1 := by
  have hDq : (0 : ℚ) < D := by exact_mod_cast hD
  have h1 := cast_div_add_mod N D hD
  have hrpos : 0 < N % D := Nat.pos_of_ne_zero hr
  have hrlt : N % D < D := Nat.mod_lt N hD
  have h2 : (0 : ℚ) < ((N % D : Nat) : ℚ) / D := by positivity
  have h3 : ((N % D : Nat) : ℚ) / D < 1 := by
    rw [div_lt_one hDq]
    exact_mod_cast hrlt
  constructor <;> [linarith; linarith]

lemma BinaryFromFraction_signals (num den : Nat) (hnum : 0 < num) (hden : 0 < den) :
    ((BinaryFromFraction num den).2.2.2 = true ↔
      ((BinaryFromFraction num den).1 : ℚ) * 2 ^ (BinaryFromFraction num den).2.1
        = (num : ℚ) / den) ∧
    ((BinaryFromFraction num den).2.1 < MIN_EXPONENT ↔
      (num : ℚ) / den < 2 ^ MIN_EXPONENT) ∧
    (MAX_EXPONENT < (BinaryFromFraction num den).2.1 ↔
      ((2 : ℚ) ^ (54 : Int) - 1) * 2 ^ (MAX_EXPONENT - 1) ≤ (num : ℚ) / den) := by
  obtain ⟨hD, hP1, hP2, hlow, hup, hexit, hred, hval⟩ := BFFscaled_spec num den hnum hden
  set N := (BFFscaled num den).1 with hNdef
  set D := (BFFscaled num den).2.1 with hDdef
  set E := (BFFscaled num den).2.2.1 with hEdef
  set P := (BFFscaled num den).2.2.2 with hPdef
  have hbff : BinaryFromFraction num den = BFFround N D E P := rfl
  rw [hbff]
  have hDq : (0 : ℚ) < D := by exact_mod_cast hD
  have hupPrec : N < 2 ^ PRECISION * D := by
    have h1 : (2 : Nat) ^ P ≤ 2 ^ PRECISION := Nat.pow_le_pow_right (by norm_num) hP2
    have h2 : 2 ^ P * D ≤ 2 ^ PRECISION * D := Nat.mul_le_mul_right D h1
    omega
  have hfPrec : N / D < 2 ^ PRECISION := Nat.div_lt_of_lt_mul (by
    calc N < 2 ^ PRECISION * D := hupPrec
      _ = D * 2 ^ PRECISION := Nat.mul_comm _ _)
  have hEe := BFFround_e N D E P hupPrec
  have hErNE := BFFround_val N D E P
  have hq_eq := cast_div_add_mod N D hD
  have h2E : (0 : ℚ) < (2 : ℚ) ^ E := by positivity
  have hq_lt : (N : ℚ) / D < (2 : ℚ) ^ (P : Nat) := by
    rw [div_lt_iff hDq]
    exact_mod_cast hup
  have hq_ge : (2 : ℚ) ^ ((P : Nat) - 1) ≤ (N : ℚ) / D := by
    rw [le_div_iff hDq]
    exact_mod_cast hlow
  refine ⟨?_, ?_, ?_⟩
  · -- isExact ↔ the returned value is exact
    rw [BFFround_exact]
    constructor
    · intro hr0
      rw [hErNE, ← hval]
      have h1 : roundNearestEven N D = N / D := by
        simp [roundNearestEven, hr0]
      have h2 : ((N / D : Nat) : ℚ) = (N : ℚ) / D := by
        rw [hq_eq, hr0]
        push_cast
        ring
      rw [h1, h2]
    · intro hvx
      by_contra hr
      have h1 : (roundNearestEven N D : ℚ) * 2 ^ E = (N : ℚ) / D * 2 ^ E := by
        rw [← hErNE, hvx, ← hval]
      have h2 : (roundNearestEven N D : ℚ) = (N : ℚ) / D :=
        mul_right_cancel₀ (ne_of_gt h2E) h1
      obtain ⟨hlt1, hlt2⟩ := q_between N D hD hr
      rcases roundNearestEven_mem N D with h | h
      · rw [h] at h2
        linarith
      · rw [h] at h2
        push_cast at h2
        linarith
  · -- underflow signal
    have hEle : E ≤ (BFFround N D E P).2.1 := by
      rw [hEe]
      split_ifs <;> omega
    constructor
    · intro hlt
      have hEMIN : E < MIN_EXPONENT := lt_of_le_of_lt hEle hlt
      have hP1' : P = 1 := hexit.resolve_left (by omega)
      rw [← hval]
      calc (N : ℚ) / D * 2 ^ E < 2 ^ (P : Nat) * 2 ^ E :=
            mul_lt_mul_of_pos_right hq_lt h2E
        _ = 2 ^ (1 : Nat) * 2 ^ E := by rw [hP1']
        _ = 2 ^ (E + 1) := by
            rw [zpow_add₀ (by norm_num : (2 : ℚ) ≠ 0) E 1]
            norm_num
            ring
        _ ≤ 2 ^ MIN_EXPONENT := zpow_le_zpow_right₀ (by norm_num) (by omega)
    · intro hxlt
      have hEMIN : E < MIN_EXPONENT := by
        by_contra hge
        push_neg at hge
        have hq1 : (1 : ℚ) ≤ (N : ℚ) / D := by
          calc (1 : ℚ) = 2 ^ (0 : Nat) := by norm_num
            _ ≤ 2 ^ ((P : Nat) - 1) := by
                apply pow_le_pow_right₀ (by norm_num)
                omega
            _ ≤ (N : ℚ) / D := hq_ge
        have hcontra : (2 : ℚ) ^ MIN_EXPONENT ≤ (num : ℚ) / den := by
          calc (2 : ℚ) ^ MIN_EXPONENT ≤ 2 ^ E := zpow_le_zpow_right₀ (by norm_num) hge
            _ = 1 * 2 ^ E := (one_mul _).symm
            _ ≤ (N : ℚ) / D * 2 ^ E := mul_le_mul_of_nonneg_right hq1 (le_of_lt h2E)
            _ = (num : ℚ) / den := hval
        linarith
      have hP1' : P = 1 := hexit.resolve_left (by omega)
      have hfsmall : roundNearestEven N D ≠ 2 ^ PRECISION := by
        have hf2 : N / D < 2 := by
          apply Nat.div_lt_of_lt_mul
          calc N < 2 ^ P * D := hup
            _ = D * 2 := by rw [hP1']; ring
        have hbig : (4 : Nat) ≤ 2 ^ PRECISION := by norm_num [PRECISION]
        rcases roundNearestEven_mem N D with h | h <;> omega
      rw [hEe, if_neg hfsmall]
      exact hEMIN
  · -- overflow signal
    have hEret_le : (BFFround N D E P).2.1 ≤ E + 1 := by
      rw [hEe]
      split_ifs <;> omega
    have hEret_ge : E ≤ (BFFround N D E P).2.1 := by
      rw [hEe]
      split_ifs <;> omega
    have hminmax : MIN_EXPONENT + 1 ≤ MAX_EXPONENT := by decide
    constructor
    · intro hgt
      have hP53 : P = PRECISION := by
        by_contra hne
        have h1 : P < PRECISION := lt_of_le_of_ne hP2 hne
        have h2 : E ≤ MIN_EXPONENT := hred h1
        omega
      have hq_ge52 : (2 : ℚ) ^ (52 : Int) ≤ (N : ℚ) / D := by
        have h1 : ((P : Nat) - 1 : Nat) = 52 := by
          rw [hP53]
          rfl
        have h2 : ((2 : ℚ) ^ (52 : Nat) : ℚ) = (2 : ℚ) ^ (52 : Int) := by
          rw [← zpow_natCast]
          norm_num
        rw [← h2, ← h1]
        exact hq_ge
      rcases lt_or_le MAX_EXPONENT E with hEgt | hEle2
      · -- E itself is past the maximum
        calc ((2 : ℚ) ^ (54 : Int) - 1) * 2 ^ (MAX_EXPONENT - 1)
            ≤ 2 ^ (54 : Int) * 2 ^ (MAX_EXPONENT - 1) := by
              have hsub : (2 : ℚ) ^ (54 : Int) - 1 ≤ 2 ^ (54 : Int) := by
                linarith [zpow_pos (by norm_num : (0:ℚ) < 2) (54 : Int)]
              exact mul_le_mul_of_nonneg_right hsub (by positivity)
          _ = 2 ^ (52 : Int) * 2 ^ (MAX_EXPONENT + 1) := by
              rw [← zpow_add₀ (by norm_num : (2 : ℚ) ≠ 0),
                ← zpow_add₀ (by norm_num : (2 : ℚ) ≠ 0)]
              congr 1
          _ ≤ 2 ^ (52 : Int) * 2 ^ E := by
              apply mul_le_mul_of_nonneg_left _ (by positivity)
              exact zpow_le_zpow_right₀ (by norm_num) (by omega)
          _ ≤ (N : ℚ) / D * 2 ^ E := mul_le_mul_of_nonneg_right hq_ge52 (by positivity)
          _ = (num : ℚ) / den := hval
      · -- carry out of the top binade: E = MAX_EXPONENT and f rounds to 2^53
        have hcarry : roundNearestEven N D = 2 ^ PRECISION := by
          by_contra hno
          rw [hEe, if_neg hno] at hgt
          omega
        have hE_eq : E = MAX_EXPONENT := by
          rw [hEe, if_pos hcarry] at hgt
          omega
        obtain ⟨hr0, hcond, hftop⟩ := roundNearestEven_eq_top N D hcarry hfPrec
        have h2r : D ≤ 2 * (N % D) := by
          rcases hcond with h | h <;> omega
        have hhalf : (1 : ℚ) / 2 ≤ ((N % D : Nat) : ℚ) / D := by
          rw [div_le_div_iff (by norm_num) hDq]
          have h1 : (1 : Nat) * D ≤ (N % D) * 2 := by omega
          exact_mod_cast h1
        have hf0q : ((N / D : Nat) : ℚ) = 2 ^ (53 : Int) - 1 := by
          have h1 : N / D = 2 ^ PRECISION - 1 := by
            generalize hfd : N / D = q at hftop
            omega
          rw [h1]
          have h2 : (1 : Nat) ≤ 2 ^ PRECISION := Nat.one_le_two_pow
          push_cast [h2]
          rw [← zpow_natCast (2 : ℚ) PRECISION]
          norm_num [PRECISION]
        have hq_ge_top : (2 : ℚ) ^ (53 : Int) - 1 / 2 ≤ (N : ℚ) / D := by
          rw [hq_eq, hf0q]
          linarith
        have hTeq : ((2 : ℚ) ^ (54 : Int) - 1) * 2 ^ (MAX_EXPONENT - 1)
            = ((2 : ℚ) ^ (53 : Int) - 1 / 2) * 2 ^ MAX_EXPONENT := by
          have h1 : (2 : ℚ) ^ MAX_EXPONENT = 2 ^ (MAX_EXPONENT - 1) * 2 := by
            rw [← zpow_add_one₀ (by norm_num : (2 : ℚ) ≠ 0)]
            congr 1
          have h2 : (2 : ℚ) ^ (54 : Int) = 2 ^ (53 : Int) * 2 := by
            rw [← zpow_add_one₀ (by norm_num : (2 : ℚ) ≠ 0)]
            norm_num
          rw [h1, h2]
          ring
        rw [hTeq, ← hval, hE_eq]
        exact mul_le_mul_of_nonneg_right hq_ge_top (by positivity)
    · intro hT
      have hEge : MAX_EXPONENT ≤ E := by
        by_contra hlt
        push_neg at hlt
        have h1 : (num : ℚ) / den < 2 ^ (53 : Int) * 2 ^ (MAX_EXPONENT - 1) := by
          calc (num : ℚ) / den = (N : ℚ) / D * 2 ^ E := hval.symm
            _ < 2 ^ (P : Nat) * 2 ^ E := mul_lt_mul_of_pos_right hq_lt h2E
            _ ≤ 2 ^ (53 : Int) * 2 ^ E := by
                apply mul_le_mul_of_nonneg_right _ (by positivity)
                rw [← zpow_natCast (2 : ℚ) P]
                exact zpow_le_zpow_right₀ (by norm_num) (by
                  have : (P : Int) ≤ 53 := by exact_mod_cast hP2
                  omega)
            _ ≤ 2 ^ (53 : Int) * 2 ^ (MAX_EXPONENT - 1) := by
                have hmono : (2 : ℚ) ^ E ≤ 2 ^ (MAX_EXPONENT - 1) :=
                  zpow_le_zpow_right₀ (by norm_num) (by omega)
                exact mul_le_mul_of_nonneg_left hmono (by positivity)
        have h2 : (2 : ℚ) ^ (53 : Int) * 2 ^ (MAX_EXPONENT - 1)
            ≤ ((2 : ℚ) ^ (54 : Int) - 1) * 2 ^ (MAX_EXPONENT - 1) := by
          have h3 : (2 : ℚ) ^ (54 : Int) = 2 ^ (53 : Int) * 2 := by
            rw [← zpow_add_one₀ (by norm_num : (2 : ℚ) ≠ 0)]
            norm_num
          have h4 : (1 : ℚ) ≤ 2 ^ (53 : Int) := one_le_zpow_of_nonneg (by norm_num) (by norm_num)
          have h5 : (2 : ℚ) ^ (53 : Int) ≤ 2 ^ (54 : Int) - 1 := by linarith
          exact mul_le_mul_of_nonneg_right h5 (by positivity)
        linarith
      have hP53 : P = PRECISION := by
        by_contra hne
        have h1 : P < PRECISION := lt_of_le_of_ne hP2 hne
        have h2 : E ≤ MIN_EXPONENT := hred h1
        omega
      rcases lt_or_le MAX_EXPONENT E with hEgt | hEle2
      · omega
      · have hE_eq : E = MAX_EXPONENT := by omega
        -- the significand must round up to 2^53 and carry
        have hq_ge_top : (2 : ℚ) ^ (53 : Int) - 1 / 2 ≤ (N : ℚ) / D := by
          have h1 : ((2 : ℚ) ^ (54 : Int) - 1) * 2 ^ (MAX_EXPONENT - 1)
              = ((2 : ℚ) ^ (53 : Int) - 1 / 2) * 2 ^ MAX_EXPONENT := by
            have h2 : (2 : ℚ) ^ MAX_EXPONENT = 2 ^ (MAX_EXPONENT - 1) * 2 := by
              rw [← zpow_add_one₀ (by norm_num : (2 : ℚ) ≠ 0)]
              congr 1
            have h3 : (2 : ℚ) ^ (54 : Int) = 2 ^ (53 : Int) * 2 := by
              rw [← zpow_add_one₀ (by norm_num : (2 : ℚ) ≠ 0)]
              norm_num
            rw [h2, h3]
            ring
          rw [h1, ← hval, hE_eq] at hT
          have h4 : (0 : ℚ) < (2 : ℚ) ^ MAX_EXPONENT := by positivity
          exact le_of_mul_le_mul_right hT h4
        have hq_lt53 : (N : ℚ) / D < 2 ^ (53 : Int) := by
          have h1 : ((2 : ℚ) ^ (P : Nat) : ℚ) = 2 ^ (53 : Int) := by
            rw [← zpow_natCast (2 : ℚ) P, hP53]
            norm_num [PRECISION]
          rw [← h1]
          exact hq_lt
        have hf0 : N / D = 2 ^ PRECISION - 1 := by
          have hfle : ((N / D : Nat) : ℚ) ≤ (N : ℚ) / D := by
            rw [hq_eq]
            have h0 : (0 : ℚ) ≤ ((N % D : Nat) : ℚ) / D := by positivity
            linarith
          have hfgt : (N : ℚ) / D < ((N / D : Nat) : ℚ) + 1 := by
            rw [hq_eq]
            have h3 : ((N % D : Nat) : ℚ) / D < 1 := by
              rw [div_lt_one hDq]
              exact_mod_cast Nat.mod_lt N hD
            linarith
          have h53 : ((2 ^ PRECISION - 1 : Nat) : ℚ) = 2 ^ (53 : Int) - 1 := by
            have h2 : (1 : Nat) ≤ 2 ^ PRECISION := Nat.one_le_two_pow
            push_cast [h2]
            rw [← zpow_natCast (2 : ℚ) PRECISION]
            norm_num [PRECISION]
          have hle : N / D ≤ 2 ^ PRECISION - 1 := by omega
          have hge2 : (2 ^ PRECISION - 1 : Nat) ≤ N / D := by
            by_contra hlt2
            push_neg at hlt2
            have h4pre : N / D ≤ 2 ^ PRECISION - 2 := by
              generalize hfd : N / D = q at hlt2
              omega
            have h4 : ((N / D : Nat) : ℚ) ≤ ((2 ^ PRECISION - 2 : Nat) : ℚ) :=
              Nat.cast_le.2 h4pre
            have h5 : ((2 ^ PRECISION - 2 : Nat) : ℚ) = 2 ^ (53 : Int) - 2 := by
              have h2 : (2 : Nat) ≤ 2 ^ PRECISION := by norm_num [PRECISION]
              push_cast [h2]
              rw [← zpow_natCast (2 : ℚ) PRECISION]
              norm_num [PRECISION]
            rw [h5] at h4
            linarith
          omega
        have hrne : roundNearestEven N D = 2 ^ PRECISION := by
          have hf0q : ((N / D : Nat) : ℚ) = 2 ^ (53 : Int) - 1 := by
            rw [hf0]
            have h2 : (1 : Nat) ≤ 2 ^ PRECISION := Nat.one_le_two_pow
            push_cast [h2]
            rw [← zpow_natCast (2 : ℚ) PRECISION]
            norm_num [PRECISION]
          have hhalf : (1 : ℚ) / 2 ≤ ((N % D : Nat) : ℚ) / D := by
            rw [hq_eq, hf0q] at hq_ge_top
            linarith
          have h2r : D ≤ 2 * (N % D) := by
            rw [div_le_div_iff (by norm_num) hDq] at hhalf
            have h1 : (1 * D : Nat) ≤ (N % D) * 2 := by exact_mod_cast hhalf
            omega
          have hrne0 : N % D ≠ 0 := by
            intro hr0
            have h1 : ((N % D : Nat) : ℚ) / D = 0 := by
              rw [hr0]
              norm_num
            rw [hq_eq, hf0q, h1] at hq_ge_top
            linarith
          simp only [roundNearestEven]
          rw [if_neg hrne0]
          have hodd : (N / D) % 2 ≠ 0 := by
            rw [hf0]
            norm_num [PRECISION]
          rw [if_pos (by omega : D < 2 * (N % D) ∨ 2 * (N % D) = D ∧ (N / D) % 2 ≠ 0)]
          omega
        rw [hEe, if_pos hrne]
        omega

/-- Claim C5: for every d ≥ 1 and k, the parser's externally meaningful outcomes:
isExact is true exactly when the returned value equals d * 10^k exactly; the
returned exponent falls below MIN_EXPONENT (the underflow signal) exactly when
the input magnitude is below the smallest subnormal 2^MIN_EXPONENT; and it
exceeds MAX_EXPONENT (the overflow signal) exactly when the input is at least
(2^54 - 1) * 2^(MAX_EXPONENT - 1), the point from which round-to-nearest-even
carries past the largest finite value. -/
theorem binaryFromDecimal_signaling (d : Nat) (k : Int) (hd : 0 < d) :
    ((BinaryFromDecimal d k).2.2.2 = true ↔
      ((BinaryFromDecimal d k).1 : ℚ) * 2 ^ (BinaryFromDecimal d k).2.1
        = (d : ℚ) * 10 ^ k) ∧
    ((BinaryFromDecimal d k).2.1 < MIN_EXPONENT ↔
      (d : ℚ) * 10 ^ k < 2 ^ MIN_EXPONENT) ∧
    (MAX_EXPONENT < (BinaryFromDecimal d k).2.1 ↔
      ((2 : ℚ) ^ (54 : Int) - 1) * 2 ^ (MAX_EXPONENT - 1) ≤ (d : ℚ) * 10 ^ k) := by
  have hnum : 0 < decimalNum d k := by
    rw [decimalNum]
    split_ifs
    · positivity
    · exact hd
  have hden : 0 < decimalDen k := by
    rw [decimalDen]
    split_ifs
    · norm_num
    · positivity
  have h := BinaryFromFraction_signals (decimalNum d k) (decimalDen k) hnum hden
  rw [decimal_val] at h
  exact h

/-- Witness for C5 at d = 1, k = 0. -/
theorem binaryFromDecimal_signaling_witness :
    ((BinaryFromDecimal 1 0).2.2.2 = true ↔
      ((BinaryFromDecimal 1 0).1 : ℚ) * 2 ^ (BinaryFromDecimal 1 0).2.1
        = (1 : ℚ) * 10 ^ (0 : Int)) ∧
    ((BinaryFromDecimal 1 0).2.1 < MIN_EXPONENT ↔
      (1 : ℚ) * 10 ^ (0 : Int) < 2 ^ MIN_EXPONENT) ∧
    (MAX_EXPONENT < (BinaryFromDecimal 1 0).2.1 ↔
      ((2 : ℚ) ^ (54 : Int) - 1) * 2 ^ (MAX_EXPONENT - 1) ≤ (1 : ℚ) * 10 ^ (0 : Int)) :=
  binaryFromDecimal_signaling 1 0 (by norm_num)

/-!
## Correct rounding of the parser (claim C3)
-/

/-- A representable (finite, positive) value of the 64-bit format: a positive
significand below 2^PRECISION at an exponent within the format range (this set
contains every subnormal and normal cohort member). -/
def ReprVal (y : ℚ) : Prop :=
  ∃ (n : Nat) (m : Int), 0 < n ∧ n < 2 ^ PRECISION ∧
    MIN_EXPONENT ≤ m ∧ m ≤ MAX_EXPONENT ∧ y = (n : ℚ) * 2 ^ m

/-- A representable value or zero. -/
def ReprOrZero (y : ℚ) : Prop := y = 0 ∨ ReprVal y

/-- roundNearestEven picks a nearest natural to num/den, within half, and on a
tie (which forces 2*(num % den) = den) it picks the even one. -/
lemma roundNearestEven_nearest (N D : Nat) (hD : 0 < D) :
    (∀ n : Nat, |(N : ℚ) / D - (roundNearestEven N D : ℚ)| ≤ |(N : ℚ) / D - (n : ℚ)|) ∧
    |(N : ℚ) / D - (roundNearestEven N D : ℚ)| ≤ 1 / 2 ∧
    (∀ n : Nat, n ≠ roundNearestEven N D →
      |(N : ℚ) / D - (n : ℚ)| = |(N : ℚ) / D - (roundNearestEven N D : ℚ)| →
      roundNearestEven N D % 2 = 0) := by
  have hDq : (0 : ℚ) < D := by exact_mod_cast hD
  have hq_eq := cast_div_add_mod N D hD
  have hθ0 : (0 : ℚ) ≤ ((N % D : Nat) : ℚ) / D := by positivity
  have hθ1 : ((N % D : Nat) : ℚ) / D < 1 := by
    rw [div_lt_one hDq]
    exact_mod_cast Nat.mod_lt N hD
  have hlow : ∀ n : Nat, n ≤ N / D →
      |(N : ℚ) / D - (n : ℚ)| = ((N % D : Nat) : ℚ) / D + (((N / D : Nat) : ℚ) - n) := by
    intro n hn
    have hnq : (n : ℚ) ≤ ((N / D : Nat) : ℚ) := Nat.cast_le.2 hn
    rw [abs_of_nonneg (by rw [hq_eq]; linarith)]
    rw [hq_eq]
    ring
  have hhigh : ∀ n : Nat, N / D + 1 ≤ n →
      |(N : ℚ) / D - (n : ℚ)| = ((n : ℚ) - ((N / D : Nat) : ℚ)) - ((N % D : Nat) : ℚ) / D := by
    intro n hn
    have hnq : ((N / D : Nat) : ℚ) + 1 ≤ (n : ℚ) := by
      have h5 : ((N / D + 1 : Nat) : ℚ) ≤ (n : ℚ) := Nat.cast_le.2 hn
      push_cast at h5
      linarith
    rw [abs_of_nonpos (by rw [hq_eq]; linarith)]
    rw [hq_eq]
    ring
  rcases Nat.eq_zero_or_pos (N % D) with hr | hr
  · -- exact division
    have hrne : roundNearestEven N D = N / D := by simp [roundNearestEven, hr]
    have hθz : ((N % D : Nat) : ℚ) / D = 0 := by rw [hr]; norm_num
    have hqf : (N : ℚ) / D = ((N / D : Nat) : ℚ) := by rw [hq_eq, hθz]; ring
    rw [hrne]
    refine ⟨?_, ?_, ?_⟩
    · intro n
      rw [hqf, sub_self, abs_zero]
      positivity
    · rw [hqf, sub_self, abs_zero]
      norm_num
    · intro n hne habs
      rw [hqf, sub_self, abs_zero, abs_eq_zero, sub_eq_zero] at habs
      have : N / D = n := by exact_mod_cast habs
      omega
  · have hrne0 : N % D ≠ 0 := by omega
    by_cases hup : D < 2 * (N % D) ∨ (2 * (N % D) = D ∧ (N / D) % 2 ≠ 0)
    · -- rounds up to f0 + 1
      have hrne : roundNearestEven N D = N / D + 1 := by
        simp only [roundNearestEven]
        rw [if_neg hrne0, if_pos hup]
      have hθhalf : 1 / 2 ≤ ((N % D : Nat) : ℚ) / D := by
        rw [div_le_div_iff (by norm_num) hDq]
        have h1 : (1 * D : Nat) ≤ (N % D) * 2 := by
          rcases hup with h | h <;> omega
        exact_mod_cast h1
      have hdist : |(N : ℚ) / D - ((N / D + 1 : Nat) : ℚ)| =
          1 - ((N % D : Nat) : ℚ) / D := by
        rw [hhigh (N / D + 1) (le_refl _)]
        push_cast
        ring
      rw [hrne]
      refine ⟨?_, ?_, ?_⟩
      · intro n
        rcases Nat.lt_or_ge n (N / D + 1) with hn | hn
        · rw [hdist, hlow n (by omega)]
          have hnq : (n : ℚ) ≤ ((N / D : Nat) : ℚ) := Nat.cast_le.2 (by omega)
          linarith
        · rw [hdist, hhigh n hn]
          have hnq : ((N / D : Nat) : ℚ) + 1 ≤ (n : ℚ) := by
            have h5 : ((N / D + 1 : Nat) : ℚ) ≤ (n : ℚ) := Nat.cast_le.2 hn
            push_cast at h5
            linarith
          linarith
      · rw [hdist]
        linarith
      · intro n hne habs
        rw [hdist] at habs
        rcases Nat.lt_or_ge n (N / D + 1) with hn | hn
        · rw [hlow n (by omega)] at habs
          have hnf0 : n = N / D := by
            by_contra hne2
            have h1 : n + 1 ≤ N / D := by omega
            have hnq : (n : ℚ) + 1 ≤ ((N / D : Nat) : ℚ) := by
              have h5 : ((n + 1 : Nat) : ℚ) ≤ ((N / D : Nat) : ℚ) := Nat.cast_le.2 h1
              push_cast at h5
              linarith
            linarith
          subst hnf0
          have hhalf_eq : ((N % D : Nat) : ℚ) / D = 1 / 2 := by linarith
          have h2req : 2 * (N % D) = D := by
            rw [div_eq_div_iff (ne_of_gt hDq) (by norm_num : (2 : ℚ) ≠ 0)] at hhalf_eq
            have h2 : ((N % D) * 2 : Nat) = (1 * D : Nat) := by exact_mod_cast hhalf_eq
            omega
          have hodd : (N / D) % 2 ≠ 0 := by
            rcases hup with h | h
            · omega
            · exact h.2
          omega
        · rw [hhigh n hn] at habs
          have hn1 : n = N / D + 1 := by
            by_contra hne2
            have h1 : N / D + 2 ≤ n := by omega
            have hnq : ((N / D : Nat) : ℚ) + 2 ≤ (n : ℚ) := by
              have h5 : ((N / D + 2 : Nat) : ℚ) ≤ (n : ℚ) := Nat.cast_le.2 h1
              push_cast at h5
              linarith
            linarith
          exact absurd hn1 hne
    · -- rounds down to f0
      have hrne : roundNearestEven N D = N / D := by
        simp only [roundNearestEven]
        rw [if_neg hrne0, if_neg hup]
      push_neg at hup
      have hθhalf : ((N % D : Nat) : ℚ) / D ≤ 1 / 2 := by
        rw [div_le_div_iff hDq (by norm_num)]
        have h1 : ((N % D) * 2 : Nat) ≤ (1 * D : Nat) := by omega
        exact_mod_cast h1
      have hdist : |(N : ℚ) / D - ((N / D : Nat) : ℚ)| = ((N % D : Nat) : ℚ) / D := by
        rw [hlow (N / D) (le_refl _)]
        ring
      rw [hrne]
      refine ⟨?_, ?_, ?_⟩
      · intro n
        rcases Nat.lt_or_ge n (N / D + 1) with hn | hn
        · rw [hdist, hlow n (by omega)]
          have hnq : (n : ℚ) ≤ ((N / D : Nat) : ℚ) := Nat.cast_le.2 (by omega)
          linarith
        · rw [hdist, hhigh n hn]
          have hnq : ((N / D : Nat) : ℚ) + 1 ≤ (n : ℚ) := by
            have h5 : ((N / D + 1 : Nat) : ℚ) ≤ (n : ℚ) := Nat.cast_le.2 hn
            push_cast at h5
            linarith
          linarith
      · rw [hdist]
        linarith
      · intro n hne habs
        rw [hdist] at habs
        rcases Nat.lt_or_ge n (N / D + 1) with hn | hn
        · have hnf0 : n = N / D := by
            by_contra hne2
            have h1 : n + 1 ≤ N / D := by omega
            have hnq : (n : ℚ) + 1 ≤ ((N / D : Nat) : ℚ) := by
              have h5 : ((n + 1 : Nat) : ℚ) ≤ ((N / D : Nat) : ℚ) := Nat.cast_le.2 h1
              push_cast at h5
              linarith
            rw [hlow n (by omega)] at habs
            linarith
          exact absurd hnf0 hne
        · rw [hhigh n hn] at habs
          have hn1 : n = N / D + 1 := by
            by_contra hne2
            have h1 : N / D + 2 ≤ n := by omega
            have hnq : ((N / D : Nat) : ℚ) + 2 ≤ (n : ℚ) := by
              have h5 : ((N / D + 2 : Nat) : ℚ) ≤ (n : ℚ) := Nat.cast_le.2 h1
              push_cast at h5
              linarith
            linarith
          subst hn1
          have hhalf_eq : ((N % D : Nat) : ℚ) / D = 1 / 2 := by
            push_cast at habs
            linarith
          have h2req : 2 * (N % D) = D := by
            rw [div_eq_div_iff (ne_of_gt hDq) (by norm_num : (2 : ℚ) ≠ 0)] at hhalf_eq
            have h2 : ((N % D) * 2 : Nat) = (1 * D : Nat) := by exact_mod_cast hhalf_eq
            omega
          exact hup.2 h2req

lemma abs_sub_scale (q c : ℚ) (E : Int) : |q * 2 ^ E - c * 2 ^ E| = |q - c| * 2 ^ E := by
  have h2E : (0 : ℚ) < 2 ^ E := by positivity
  rw [show q * 2 ^ E - c * 2 ^ E = (q - c) * 2 ^ E by ring, abs_mul, abs_of_pos h2E]

lemma BFFround_f_parity (num den : Nat) (e : Int) (p : Nat) :
    (BFFround num den e p).1 = roundNearestEven num den ∨
    (BFFround num den e p).1 = 2 ^ (PRECISION - 1) := by
  simp only [BFFround, roundNearestEven]
  split_ifs <;> simp

lemma BFFround_f_lower (num den : Nat) (e : Int) (p : Nat) (hden : 0 < den)
    (hp : p ≤ PRECISION) (hlower : 2 ^ (p - 1) * den ≤ num) :
    2 ^ (p - 1) ≤ (BFFround num den e p).1 := by
  have hf0lo : 2 ^ (p - 1) ≤ num / den := (Nat.le_div_iff_mul_le hden).2 hlower
  have hmono : (2 : Nat) ^ (p - 1) ≤ 2 ^ (PRECISION - 1) :=
    Nat.pow_le_pow_right (by norm_num) (by omega)
  simp only [BFFround]
  split_ifs <;> omega

lemma cast_two_pow_53 : ((2 ^ PRECISION - 1 : Nat) : ℚ) = 2 ^ (53 : Int) - 1 := by
  have h2 : (1 : Nat) ≤ 2 ^ PRECISION := Nat.one_le_two_pow
  push_cast [h2]
  rw [← zpow_natCast (2 : ℚ) PRECISION]
  norm_num [PRECISION]

/-- Claim C3 (amended): when the result exponent lands inside the format range,
BinaryFromDecimal returns a representable value, that value is nearest to
d * 10^k among all representable values and zero, and any distinct representable
value at the same distance forces the returned (even) significand. -/
theorem binaryFromDecimal_correctly_rounds (d : Nat) (k : Int) (hd : 0 < d)
    (hlo : MIN_EXPONENT ≤ (BinaryFromDecimal d k).2.1)
    (hhi : (BinaryFromDecimal d k).2.1 ≤ MAX_EXPONENT) :
    ReprVal (((BinaryFromDecimal d k).1 : ℚ) * 2 ^ (BinaryFromDecimal d k).2.1) ∧
    (∀ y, ReprOrZero y →
      |(d : ℚ) * 10 ^ k - ((BinaryFromDecimal d k).1 : ℚ) * 2 ^ (BinaryFromDecimal d k).2.1|
        ≤ |(d : ℚ) * 10 ^ k - y|) ∧
    (∀ y, ReprOrZero y →
      y ≠ ((BinaryFromDecimal d k).1 : ℚ) * 2 ^ (BinaryFromDecimal d k).2.1 →
      |(d : ℚ) * 10 ^ k - y| =
        |(d : ℚ) * 10 ^ k - ((BinaryFromDecimal d k).1 : ℚ) * 2 ^ (BinaryFromDecimal d k).2.1| →
      (BinaryFromDecimal d k).1 % 2 = 0) := by
  have hnum : 0 < decimalNum d k := by
    rw [decimalNum]
    split_ifs
    · positivity
    · exact hd
  have hden : 0 < decimalDen k := by
    rw [decimalDen]
    split_ifs
    · norm_num
    · positivity
  obtain ⟨hD, hP1, hP2, hlow, hup, hexit, hred, hval⟩ :=
    BFFscaled_spec (decimalNum d k) (decimalDen k) hnum hden
  set N := (BFFscaled (decimalNum d k) (decimalDen k)).1 with hNdef
  set D := (BFFscaled (decimalNum d k) (decimalDen k)).2.1 with hDdef
  set E := (BFFscaled (decimalNum d k) (decimalDen k)).2.2.1 with hEdef
  set P := (BFFscaled (decimalNum d k) (decimalDen k)).2.2.2 with hPdef
  have hbff : BinaryFromDecimal d k = BFFround N D E P := rfl
  rw [hbff] at hlo hhi ⊢
  have hDq : (0 : ℚ) < D := by exact_mod_cast hD
  have hx : (d : ℚ) * 10 ^ k = (N : ℚ) / D * 2 ^ E :=
    (decimal_val d k).symm.trans hval.symm
  have hvres := BFFround_val N D E P
  have h2E : (0 : ℚ) < (2 : ℚ) ^ E := by positivity
  obtain ⟨hnear, hhalf, htie⟩ := roundNearestEven_nearest N D hD
  have habs_v : |(d : ℚ) * 10 ^ k - ((BFFround N D E P).1 : ℚ) * 2 ^ (BFFround N D E P).2.1|
      = |(N : ℚ) / D - (roundNearestEven N D : ℚ)| * 2 ^ E := by
    rw [hvres, hx, abs_sub_scale]
  have habs_v_half : |(d : ℚ) * 10 ^ k -
      ((BFFround N D E P).1 : ℚ) * 2 ^ (BFFround N D E P).2.1| ≤ 1 / 2 * 2 ^ E := by
    rw [habs_v]
    exact mul_le_mul_of_nonneg_right hhalf (le_of_lt h2E)
  have hq_lt : (N : ℚ) / D < (2 : ℚ) ^ (P : Nat) := by
    rw [div_lt_iff hDq]
    exact_mod_cast hup
  have hq_ge : (2 : ℚ) ^ ((P : Nat) - 1) ≤ (N : ℚ) / D := by
    rw [le_div_iff hDq]
    exact_mod_cast hlow
  have hq_ge1 : (1 : ℚ) ≤ (N : ℚ) / D := by
    calc (1 : ℚ) = 2 ^ (0 : Nat) := by norm_num
      _ ≤ 2 ^ ((P : Nat) - 1) := by
          apply pow_le_pow_right₀ (by norm_num)
          omega
      _ ≤ (N : ℚ) / D := hq_ge
  have hfbounds := BFFround_f N D E P hD hP1 hP2 hlow hup
  refine ⟨?_, ?_, ?_⟩
  · exact ⟨(BFFround N D E P).1, (BFFround N D E P).2.1, hfbounds.1, hfbounds.2,
      hlo, hhi, rfl⟩
  · intro y hy
    rcases hy with hy0 | ⟨n, m, hn0, hnlt, hmlo, hmhi, hyeq⟩
    · subst hy0
      rw [sub_zero]
      have hxval : (d : ℚ) * 10 ^ k = (N : ℚ) / D * 2 ^ E := hx
      have hxpos : (2 : ℚ) ^ E ≤ (d : ℚ) * 10 ^ k := by
        rw [hxval]
        calc (2 : ℚ) ^ E = 1 * 2 ^ E := (one_mul _).symm
          _ ≤ (N : ℚ) / D * 2 ^ E := mul_le_mul_of_nonneg_right hq_ge1 (le_of_lt h2E)
      have habsx : |(d : ℚ) * 10 ^ k| = (d : ℚ) * 10 ^ k := abs_of_pos (by linarith)
      rw [habsx]
      linarith
    · subst hyeq
      rcases le_or_lt E m with hm | hm
      · -- y is a multiple of 2^E
        have hcoef : (n : ℚ) * 2 ^ m = ((n * 2 ^ (m - E).toNat : Nat) : ℚ) * 2 ^ E := by
          push_cast
          rw [mul_assoc]
          congr 1
          rw [← zpow_natCast (2 : ℚ) (m - E).toNat,
            ← zpow_add₀ (by norm_num : (2 : ℚ) ≠ 0)]
          congr 1
          omega
        rw [hcoef, habs_v, hx, abs_sub_scale]
        exact mul_le_mul_of_nonneg_right (hnear _) (le_of_lt h2E)
      · -- y lives on a finer grid strictly below the binade of x
        have hEMIN : MIN_EXPONENT < E := lt_of_le_of_lt hmlo hm
        have hP53 : P = PRECISION := by
          by_contra hne
          have h1 : P < PRECISION := lt_of_le_of_ne hP2 hne
          have h2 : E ≤ MIN_EXPONENT := hred h1
          omega
        have hq_ge52 : (2 : ℚ) ^ (52 : Int) ≤ (N : ℚ) / D := by
          have h1 : ((P : Nat) - 1 : Nat) = 52 := by
            rw [hP53]
            rfl
          have h2 : ((2 : ℚ) ^ (52 : Nat) : ℚ) = (2 : ℚ) ^ (52 : Int) := by
            rw [← zpow_natCast]
            norm_num
          rw [← h2, ← h1]
          exact hq_ge
        have hxge : (2 : ℚ) ^ (E + 52) ≤ (d : ℚ) * 10 ^ k := by
          rw [hx]
          calc (2 : ℚ) ^ (E + 52) = 2 ^ (52 : Int) * 2 ^ E := by
                rw [← zpow_add₀ (by norm_num : (2 : ℚ) ≠ 0)]
                congr 1
                ring
            _ ≤ (N : ℚ) / D * 2 ^ E := mul_le_mul_of_nonneg_right hq_ge52 (le_of_lt h2E)
        have hyle : (n : ℚ) * 2 ^ m ≤ 2 ^ (E + 52) - 2 ^ (E - 1) := by
          have hn53 : (n : ℚ) ≤ 2 ^ (53 : Int) - 1 := by
            have h1 : n ≤ 2 ^ PRECISION - 1 := by omega
            calc (n : ℚ) ≤ ((2 ^ PRECISION - 1 : Nat) : ℚ) := Nat.cast_le.2 h1
              _ = 2 ^ (53 : Int) - 1 := cast_two_pow_53
          have hm1 : (2 : ℚ) ^ m ≤ 2 ^ (E - 1) :=
            zpow_le_zpow_right₀ (by norm_num) (by omega)
          have hprod : (n : ℚ) * 2 ^ m ≤ (2 ^ (53 : Int) - 1) * 2 ^ (E - 1) := by
            have h53pos : (0 : ℚ) < 2 ^ (53 : Int) := zpow_pos (by norm_num) _
            apply mul_le_mul hn53 hm1 (by positivity) (by linarith)
          have hcollapse : (2 : ℚ) ^ (53 : Int) * 2 ^ (E - 1) = 2 ^ (E + 52) := by
            rw [← zpow_add₀ (by norm_num : (2 : ℚ) ≠ 0)]
            congr 1
            ring
          calc (n : ℚ) * 2 ^ m ≤ (2 ^ (53 : Int) - 1) * 2 ^ (E - 1) := hprod
            _ = 2 ^ (53 : Int) * 2 ^ (E - 1) - 2 ^ (E - 1) := by ring
            _ = 2 ^ (E + 52) - 2 ^ (E - 1) := by rw [hcollapse]
        have h2Esplit : (2 : ℚ) ^ E = 2 ^ (E - 1) * 2 := by
          rw [← zpow_add_one₀ (by norm_num : (2 : ℚ) ≠ 0)]
          congr 1
          omega
        have hhalfE : (1 : ℚ) / 2 * 2 ^ E = 2 ^ (E - 1) := by
          rw [h2Esplit]
          ring
        have hxy : (2 : ℚ) ^ (E - 1) ≤ (d : ℚ) * 10 ^ k - (n : ℚ) * 2 ^ m := by
          linarith
        have habsy : |(d : ℚ) * 10 ^ k - (n : ℚ) * 2 ^ m|
            = (d : ℚ) * 10 ^ k - (n : ℚ) * 2 ^ m :=
          abs_of_nonneg (by linarith [zpow_pos (by norm_num : (0 : ℚ) < 2) (E - 1)])
        rw [habsy]
        linarith
  · intro y hy hne habs
    rcases hy with hy0 | ⟨n, m, hn0, hnlt, hmlo, hmhi, hyeq⟩
    · exfalso
      subst hy0
      rw [sub_zero] at habs
      have hxpos : (2 : ℚ) ^ E ≤ (d : ℚ) * 10 ^ k := by
        rw [hx]
        calc (2 : ℚ) ^ E = 1 * 2 ^ E := (one_mul _).symm
          _ ≤ (N : ℚ) / D * 2 ^ E := mul_le_mul_of_nonneg_right hq_ge1 (le_of_lt h2E)
      have habsx : |(d : ℚ) * 10 ^ k| = (d : ℚ) * 10 ^ k := abs_of_pos (by linarith)
      rw [habsx] at habs
      have hEhalf : (1 : ℚ) / 2 * 2 ^ E < 2 ^ E := by linarith
      linarith
    · subst hyeq
      rcases le_or_lt E m with hm | hm
      · -- a genuine tie on the 2^E grid: the code picked the even significand
        have hcoef : (n : ℚ) * 2 ^ m = ((n * 2 ^ (m - E).toNat : Nat) : ℚ) * 2 ^ E := by
          push_cast
          rw [mul_assoc]
          congr 1
          rw [← zpow_natCast (2 : ℚ) (m - E).toNat,
            ← zpow_add₀ (by norm_num : (2 : ℚ) ≠ 0)]
          congr 1
          omega
        rw [hcoef] at hne habs
        rw [habs_v, hx, abs_sub_scale] at habs
        have habs2 : |(N : ℚ) / D - ((n * 2 ^ (m - E).toNat : Nat) : ℚ)|
            = |(N : ℚ) / D - (roundNearestEven N D : ℚ)| :=
          mul_right_cancel₀ (ne_of_gt h2E) habs
        have hne2 : n * 2 ^ (m - E).toNat ≠ roundNearestEven N D := by
          intro heq
          apply hne
          rw [heq, ← hvres]
        have hpar := htie _ hne2 habs2
        rcases BFFround_f_parity N D E P with hp | hp
        · rw [hp]
          exact hpar
        · rw [hp]
          norm_num [PRECISION]
      · -- equality cannot happen on the finer grid below the binade
        exfalso
        have hEMIN : MIN_EXPONENT < E := lt_of_le_of_lt hmlo hm
        have hP53 : P = PRECISION := by
          by_contra hne3
          have h1 : P < PRECISION := lt_of_le_of_ne hP2 hne3
          have h2 : E ≤ MIN_EXPONENT := hred h1
          omega
        have hq_ge52 : (2 : ℚ) ^ (52 : Int) ≤ (N : ℚ) / D := by
          have h1 : ((P : Nat) - 1 : Nat) = 52 := by
            rw [hP53]
            rfl
          have h2 : ((2 : ℚ) ^ (52 : Nat) : ℚ) = (2 : ℚ) ^ (52 : Int) := by
            rw [← zpow_natCast]
            norm_num
          rw [← h2, ← h1]
          exact hq_ge
        have hxge : (2 : ℚ) ^ (E + 52) ≤ (d : ℚ) * 10 ^ k := by
          rw [hx]
          calc (2 : ℚ) ^ (E + 52) = 2 ^ (52 : Int) * 2 ^ E := by
                rw [← zpow_add₀ (by norm_num : (2 : ℚ) ≠ 0)]
                congr 1
                ring
            _ ≤ (N : ℚ) / D * 2 ^ E := mul_le_mul_of_nonneg_right hq_ge52 (le_of_lt h2E)
        have hyle : (n : ℚ) * 2 ^ m ≤ 2 ^ (E + 52) - 2 ^ (E - 1) := by
          have hn53 : (n : ℚ) ≤ 2 ^ (53 : Int) - 1 := by
            have h1 : n ≤ 2 ^ PRECISION - 1 := by omega
            calc (n : ℚ) ≤ ((2 ^ PRECISION - 1 : Nat) : ℚ) := Nat.cast_le.2 h1
              _ = 2 ^ (53 : Int) - 1 := cast_two_pow_53
          have hm1 : (2 : ℚ) ^ m ≤ 2 ^ (E - 1) :=
            zpow_le_zpow_right₀ (by norm_num) (by omega)
          have hprod : (n : ℚ) * 2 ^ m ≤ (2 ^ (53 : Int) - 1) * 2 ^ (E - 1) := by
            have h53pos : (0 : ℚ) < 2 ^ (53 : Int) := zpow_pos (by norm_num) _
            apply mul_le_mul hn53 hm1 (by positivity) (by linarith)
          have hcollapse : (2 : ℚ) ^ (53 : Int) * 2 ^ (E - 1) = 2 ^ (E + 52) := by
            rw [← zpow_add₀ (by norm_num : (2 : ℚ) ≠ 0)]
            congr 1
            ring
          calc (n : ℚ) * 2 ^ m ≤ (2 ^ (53 : Int) - 1) * 2 ^ (E - 1) := hprod
            _ = 2 ^ (53 : Int) * 2 ^ (E - 1) - 2 ^ (E - 1) := by ring
            _ = 2 ^ (E + 52) - 2 ^ (E - 1) := by rw [hcollapse]
        have h2Esplit : (2 : ℚ) ^ E = 2 ^ (E - 1) * 2 := by
          rw [← zpow_add_one₀ (by norm_num : (2 : ℚ) ≠ 0)]
          congr 1
          omega
        have hhalfE : (1 : ℚ) / 2 * 2 ^ E = 2 ^ (E - 1) := by
          rw [h2Esplit]
          ring
        have hxy : (2 : ℚ) ^ (E - 1) ≤ (d : ℚ) * 10 ^ k - (n : ℚ) * 2 ^ m := by
          linarith
        have hEm1pos : (0 : ℚ) < 2 ^ (E - 1) := by positivity
        have habsy : |(d : ℚ) * 10 ^ k - (n : ℚ) * 2 ^ m|
            = (d : ℚ) * 10 ^ k - (n : ℚ) * 2 ^ m :=
          abs_of_nonneg (by linarith [zpow_pos (by norm_num : (0 : ℚ) < 2) (E - 1)])
        rw [habsy] at habs
        -- the distances pinch: x - y = 2^(E-1) and |x - v| = 2^(E-1)
        have hpinch1 : (d : ℚ) * 10 ^ k - (n : ℚ) * 2 ^ m = 2 ^ (E - 1) := by
          linarith [habs_v_half]
        have hpinch2 : (d : ℚ) * 10 ^ k = 2 ^ (E + 52) := by
          linarith
        -- so N / D = 2^52 exactly and the division was exact; then v = x
        have hq52 : (N : ℚ) / D = 2 ^ (52 : Int) := by
          have h1 : (N : ℚ) / D * 2 ^ E = 2 ^ (52 : Int) * 2 ^ E := by
            rw [← hx, hpinch2]
            rw [← zpow_add₀ (by norm_num : (2 : ℚ) ≠ 0)]
            congr 1
            ring
          exact mul_right_cancel₀ (ne_of_gt h2E) h1
        have hN : N = 2 ^ 52 * D := by
          have h1 : (N : ℚ) = 2 ^ (52 : Int) * D := by
            rw [← hq52]
            field_simp
          exact_mod_cast h1
        have hr0 : N % D = 0 := by
          rw [hN]
          exact Nat.mul_mod_left _ _
        have hrne_exact : roundNearestEven N D = N / D := by simp [roundNearestEven, hr0]
        have hqint : ((N / D : Nat) : ℚ) = (N : ℚ) / D := by
          rw [cast_div_add_mod N D hD, hr0]
          push_cast
          ring
        have hzero : |(N : ℚ) / D - (roundNearestEven N D : ℚ)| = 0 := by
          rw [hrne_exact, hqint, sub_self, abs_zero]
        rw [habs_v, hzero, zero_mul] at habs
        linarith

/-- Claim C3 (counterexample): at the concrete input d = 1, k = 320 the parser
overflows the format (the returned exponent exceeds MAX_EXPONENT) and the
returned triple is not a representable float; it is therefore not the
representable binary float nearest to 10^320, contradicting the claim as stated
for arbitrary k. -/
theorem binaryFromDecimal_overflow_not_nearest :
    ¬ (ReprVal (((BinaryFromDecimal 1 320).1 : ℚ) * 2 ^ (BinaryFromDecimal 1 320).2.1) ∧
       ∀ y, ReprOrZero y →
         |(1 : ℚ) * 10 ^ (320 : Int) -
             ((BinaryFromDecimal 1 320).1 : ℚ) * 2 ^ (BinaryFromDecimal 1 320).2.1|
           ≤ |(1 : ℚ) * 10 ^ (320 : Int) - y|) := by
  intro hcl
  obtain ⟨hrep, _⟩ := hcl
  have hnum : 0 < decimalNum 1 320 := by
    rw [decimalNum]
    split_ifs
    · positivity
    · norm_num
  have hden : 0 < decimalDen (320 : Int) := by
    rw [decimalDen]
    split_ifs
    · norm_num
    · positivity
  -- the input exceeds the overflow threshold
  have hT : ((2 : ℚ) ^ (54 : Int) - 1) * 2 ^ (MAX_EXPONENT - 1) ≤ (1 : ℚ) * 10 ^ (320 : Int) := by
    have hM : MAX_EXPONENT - 1 = (970 : Int) := by decide
    have hnat : (2 : Nat) ^ 1024 ≤ 10 ^ 320 := by norm_num
    have hq : (2 : ℚ) ^ (1024 : Int) ≤ 10 ^ (320 : Int) := by
      have h1 : ((2 ^ 1024 : Nat) : ℚ) ≤ ((10 ^ 320 : Nat) : ℚ) := Nat.cast_le.2 hnat
      push_cast at h1
      rw [← zpow_natCast (2 : ℚ) 1024, ← zpow_natCast (10 : ℚ) 320] at h1
      exact_mod_cast h1
    have hcollapse : (2 : ℚ) ^ (54 : Int) * 2 ^ (970 : Int) = 2 ^ (1024 : Int) := by
      rw [← zpow_add₀ (by norm_num : (2 : ℚ) ≠ 0)]
      norm_num
    have hpos : (0 : ℚ) < 2 ^ (970 : Int) := by positivity
    rw [hM, one_mul]
    nlinarith [hq, hcollapse, hpos]
  have hbd : BinaryFromDecimal 1 320 = BinaryFromFraction (decimalNum 1 320) (decimalDen 320) := rfl
  have hsig := (BinaryFromFraction_signals (decimalNum 1 320) (decimalDen 320) hnum hden).2.2
  rw [decimal_val, ← hbd] at hsig
  have hT2 : ((2 : ℚ) ^ (54 : Int) - 1) * 2 ^ (MAX_EXPONENT - 1) ≤ ((1 : Nat) : ℚ) * 10 ^ (320 : Int) := by
    push_cast
    push_cast at hT
    exact hT
  have hover : MAX_EXPONENT < (BinaryFromDecimal 1 320).2.1 := hsig.mpr hT2
  -- unpack the machinery to bound the returned value from below
  obtain ⟨hD, hP1, hP2, hlow, hup, hexit, hred, hval⟩ :=
    BFFscaled_spec (decimalNum 1 320) (decimalDen 320) hnum hden
  set N := (BFFscaled (decimalNum 1 320) (decimalDen 320)).1 with hNdef
  set D := (BFFscaled (decimalNum 1 320) (decimalDen 320)).2.1 with hDdef
  set E := (BFFscaled (decimalNum 1 320) (decimalDen 320)).2.2.1 with hEdef
  set P := (BFFscaled (decimalNum 1 320) (decimalDen 320)).2.2.2 with hPdef
  have hbff : BinaryFromDecimal 1 320 = BFFround N D E P := rfl
  rw [hbff] at hover hrep
  clear hbff hbd hsig hT2 hT hnum hden hval hNdef hDdef hEdef hPdef
  clear_value N D E P
  have hupPrec : N < 2 ^ PRECISION * D := by
    have h1 : (2 : Nat) ^ P ≤ 2 ^ PRECISION := Nat.pow_le_pow_right (by norm_num) hP2
    have h2 : 2 ^ P * D ≤ 2 ^ PRECISION * D := Nat.mul_le_mul_right D h1
    omega
  have hEe := BFFround_e N D E P hupPrec
  have hEret_le : (BFFround N D E P).2.1 ≤ E + 1 := by
    rw [hEe]
    split_ifs <;> omega
  have hminmax : MIN_EXPONENT + 1 ≤ MAX_EXPONENT := by decide
  have hP53 : P = PRECISION := by
    by_contra hne
    have h1 : P < PRECISION := lt_of_le_of_ne hP2 hne
    have h2 : E ≤ MIN_EXPONENT := hred h1
    omega
  have hflow := BFFround_f_lower N D E P hD hP2 hlow
  obtain ⟨n, m, hn0, hnlt, hmlo, hmhi, hyeq⟩ := hrep
  -- lower bound on the returned value
  have hf52 : ((2 : ℚ) ^ (52 : Int)) ≤ ((BFFround N D E P).1 : ℚ) := by
    have hPm : P - 1 = 52 := by rw [hP53]; rfl
    rw [hPm] at hflow
    have h3 : ((2 ^ 52 : Nat) : ℚ) ≤ ((BFFround N D E P).1 : ℚ) := Nat.cast_le.2 hflow
    have h4 : ((2 ^ 52 : Nat) : ℚ) = (2 : ℚ) ^ (52 : Int) := by norm_num
    rw [h4] at h3
    exact h3
  have hzge : (2 : ℚ) ^ (MAX_EXPONENT + 1) ≤ 2 ^ (BFFround N D E P).2.1 :=
    zpow_le_zpow_right₀ (by norm_num) (Int.add_one_le_iff.mpr hover)
  have hv_ge : (2 : ℚ) ^ (52 : Int) * 2 ^ (MAX_EXPONENT + 1)
      ≤ ((BFFround N D E P).1 : ℚ) * 2 ^ (BFFround N D E P).2.1 := by
    apply mul_le_mul hf52 hzge (by positivity) (by positivity)
  -- upper bound from representability
  have hn53 : (n : ℚ) ≤ 2 ^ (53 : Int) - 1 := by
    have h1 : n ≤ 2 ^ PRECISION - 1 := by omega
    calc (n : ℚ) ≤ ((2 ^ PRECISION - 1 : Nat) : ℚ) := Nat.cast_le.2 h1
      _ = 2 ^ (53 : Int) - 1 := cast_two_pow_53
  have hm1 : (2 : ℚ) ^ m ≤ 2 ^ MAX_EXPONENT :=
    zpow_le_zpow_right₀ (by norm_num) hmhi
  have hv_le : ((BFFround N D E P).1 : ℚ) * 2 ^ (BFFround N D E P).2.1
      ≤ (2 ^ (53 : Int) - 1) * 2 ^ MAX_EXPONENT := by
    rw [hyeq]
    apply mul_le_mul hn53 hm1 (by positivity) (by
      have h53pos : (0 : ℚ) < 2 ^ (53 : Int) := by positivity
      linarith)
  have hcollapse : (2 : ℚ) ^ (52 : Int) * 2 ^ (MAX_EXPONENT + 1)
      = 2 ^ (53 : Int) * 2 ^ MAX_EXPONENT := by
    rw [← zpow_add₀ (by norm_num : (2 : ℚ) ≠ 0), ← zpow_add₀ (by norm_num : (2 : ℚ) ≠ 0)]
    congr 1
  have hexp : ((2 : ℚ) ^ (53 : Int) - 1) * 2 ^ MAX_EXPONENT
      = 2 ^ (53 : Int) * 2 ^ MAX_EXPONENT - 2 ^ MAX_EXPONENT := by ring
  have hMpos : (0 : ℚ) < 2 ^ MAX_EXPONENT := by positivity
  rw [hcollapse] at hv_ge
  rw [hexp] at hv_le
  linarith [hv_ge, hv_le, hMpos]

/-- Witness for C3 at d = 3, k = 0 (result 3 * 2^51 at exponent -51, in range). -/
theorem binaryFromDecimal_correctly_rounds_witness :
    ReprVal (((BinaryFromDecimal 3 0).1 : ℚ) * 2 ^ (BinaryFromDecimal 3 0).2.1) ∧
    (∀ y, ReprOrZero y →
      |(3 : ℚ) * 10 ^ (0 : Int) - ((BinaryFromDecimal 3 0).1 : ℚ) * 2 ^ (BinaryFromDecimal 3 0).2.1|
        ≤ |(3 : ℚ) * 10 ^ (0 : Int) - y|) ∧
    (∀ y, ReprOrZero y →
      y ≠ ((BinaryFromDecimal 3 0).1 : ℚ) * 2 ^ (BinaryFromDecimal 3 0).2.1 →
      |(3 : ℚ) * 10 ^ (0 : Int) - y| =
        |(3 : ℚ) * 10 ^ (0 : Int) - ((BinaryFromDecimal 3 0).1 : ℚ) * 2 ^ (BinaryFromDecimal 3 0).2.1| →
      (BinaryFromDecimal 3 0).1 % 2 = 0) :=
  binaryFromDecimal_correctly_rounds 3 0 (by norm_num) (by decide) (by decide)
